import Mathlib

/-!
# Verification of the mcp-wizard discovery/research aggregation pipeline

Shallow embedding of the discovery pipeline of the `mcp-wizard` repository:

* `ResearchService` (src/unnamed/part_009): `discoverMCPServers`, `searchGitHub`,
  `searchNpm`, `deduplicateAndMerge`, `mergeGitHubAndNpmData`, `analyzeRepository`
  (URL form), `startResearchJob`, `runResearchJob`;
* `RepositoryMetadataExtractor` (src/backend/src/services/research/
  RepositoryMetadataExtractor.ts): `analyzeRepository` and its helpers;
* `PackageMetadataExtractor` (same file): `analyzeMCPIndicators`,
  `analysisToMCPServer` and helpers;
* `NpmRegistryClient.extractGitHubUrl`.

Modelling conventions:
* JavaScript numbers are modelled as `ℚ` where fractional arithmetic occurs
  (confidence scores; the only multiplication is by 0.7 and every comparison in
  the claims is invariant under the exact-rational reading) and as `Nat` for
  counts (stars, forks, downloads, lengths).
* `Promise` results are `Except String α` (`.error` = rejection, carrying the
  error message); `null`/`undefined` are `Option`.
* JavaScript `Map` (insertion-ordered, set-replaces-in-place) is an association
  list `List (String × α)` with `jsMapSet`/`jsMapGet`.
* JavaScript `Set` (insertion-ordered, first occurrence kept) is `jsSetOfList`.
* External collaborators (GitHub / npm HTTP clients, Redis cache, the JS
  runtime's `JSON.parse`) are oracle parameters; the sequence of collaborator
  calls a function performs is returned as an explicit trace where a claim
  is about which calls happen.
-/

/-! ## JavaScript-semantics primitives -/

/-- JS `a || b` on numbers modelled as `Nat`: `0` is the only falsy value. -/
def jsOrNat (a b : Nat) : Nat := if a = 0 then b else a

/-- Truthiness of an optional JS string: `undefined`/`null` and `""` are falsy. -/
def strTruthy : Option String → Bool
  | none => false
  | some s => s ≠ ""

/-- JS `a || b` over two optional strings, yielding the first truthy one
(or `""`, matching contexts such as `a || b || ''`). -/
def jsOrStr (a b : Option String) : String :=
  if strTruthy a then a.getD "" else if strTruthy b then b.getD "" else ""

/-- One step of building a JS `Set` as an insertion-ordered duplicate-free list:
add `x` at the end unless already present. -/
def jsSetAdd (acc : List String) (x : String) : List String :=
  if x ∈ acc then acc else acc ++ [x]

/-- `Array.from(new Set(l))`: first occurrence of each element, in order. -/
def jsSetOfList (l : List String) : List String := l.foldl jsSetAdd []

/-- JS `Map.prototype.get`. -/
def jsMapGet {α : Type} (m : List (String × α)) (k : String) : Option α :=
  (m.find? (fun p => p.1 = k)).map (·.2)

/-- JS `Map.prototype.set`: replace in place if the key is present
(keeping its position), otherwise append. -/
def jsMapSet {α : Type} (m : List (String × α)) (k : String) (v : α) :
    List (String × α) :=
  if m.any (fun p => p.1 = k) then
    m.map (fun p => if p.1 = k then (k, v) else p)
  else
    m ++ [(k, v)]

/-- Case-insensitive-ready substring containment on strings
(JS `String.prototype.includes`). -/
def strContains (s pat : String) : Bool := decide (List.IsInfix pat.toList s.toList)

/-- JS `String.prototype.toLowerCase`, written as a per-character map on the
underlying character list so that it evaluates by kernel reduction. -/
def strToLower (s : String) : String := (s.toList.map Char.toLower).asString

/-! ## Data model (`@mcp-wizard/shared` types, src/README.md lines 309-338) -/

/-- `source: 'github' | 'npm' | 'manual'`. -/
inductive ServerSource
  | github
  | npm
  | manual
deriving DecidableEq, Repr

/-- `transport: 'stdio' | 'sse'`. -/
inductive Transport
  | stdio
  | sse
deriving DecidableEq, Repr

/-- Parameter type inferred by `RepositoryMetadataExtractor.inferParamType`. -/
inductive ParamType
  | string
  | number
  | boolean
  | path
  | secret
deriving DecidableEq, Repr

/-- A JSON-like dynamically-typed value (tool/resource/prompt schema blobs and
results of `JSON.parse` / the ad-hoc YAML subset parser). -/
inductive JsValue
  | str (s : String)
  | num (q : ℚ)
  | jsBool (b : Bool)
  | jsNull
  | arr (elems : List JsValue)
  | obj (fields : List (String × JsValue))

/-- A configuration parameter descriptor (see `extractParameters`). -/
structure ConfigParam where
  key : String
  type : ParamType
  description : String
  required : Bool
  default : Option String

/-- Launch template: `{command, args, env, transport}`. -/
structure ConfigTemplate where
  command : String
  args : List String
  env : List (String × String)
  transport : Transport

/-- `MCPServer` — the normalized catalog entry (src/README.md lines 309-338).
`Date` fields are abstract `Nat` ticks. -/
structure MCPServer where
  id : String
  name : String
  description : String
  source : ServerSource
  sourceUrl : String
  packageName : Option String
  version : String
  author : String
  license : String
  tags : List String
  readme : String
  tools : List JsValue
  resources : List JsValue
  prompts : List JsValue
  configTemplate : ConfigTemplate
  requiredParams : List ConfigParam
  optionalParams : List ConfigParam
  createdAt : Nat
  updatedAt : Nat
  lastResearchedAt : Nat
  popularity : Nat
  verified : Bool

/-! ## GitHub-URL regular-expression matching

Both `NpmRegistryClient.extractGitHubUrl` (pattern
`github\.com\/([^\/]+)\/([^\/\.]+)`) and `ResearchService.analyzeRepository`
(pattern `github\.com\/([^\/]+)\/([^\/]+)`) look for the leftmost occurrence of
the literal `github.com/` followed by a nonempty owner segment (no `/`), a
`/`, and a nonempty repository segment (excluded characters depend on the
pattern). Since the owner class excludes `/`, the `/` matched between the two
groups is necessarily the first `/` after the literal, so a direct scan is
equivalent to the regex search. `badRepo` is the repository segment's excluded
character set. -/

def githubComLit : List Char := "github.com/".toList

/-- Leftmost match of `github\.com\/([^\/]+)\/([^<badRepo>]+)` returning the
two capture groups. -/
def scanGithubRepo (badRepo : List Char) : List Char → Option (List Char × List Char)
  | [] => none
  | c :: rest =>
    if githubComLit.isPrefixOf (c :: rest) then
      let after := (c :: rest).drop githubComLit.length
      let owner := after.takeWhile (fun ch => ch ≠ '/')
      match after.drop owner.length with
      | '/' :: r3 =>
        let repoSeg := r3.takeWhile (fun ch => decide (ch ∉ badRepo))
        if owner ≠ [] ∧ repoSeg ≠ [] then some (owner, repoSeg)
        else scanGithubRepo badRepo rest
      | _ => scanGithubRepo badRepo rest
    else scanGithubRepo badRepo rest

/-! ## npm registry data (NpmRegistryClient.ts, embedded in
src/backend/src/services/research/RepositoryMetadataExtractor.ts lines 427-733) -/

/-- The `repository` field of npm package metadata: the code handles both the
string form and the object form (whose `url` it reads, guarded by truthiness). -/
inductive NpmRepoField
  | str (s : String)
  | obj (url : Option String)

/-- `author: string | \x7bname, email?\x7d`. -/
inductive PkgAuthor
  | str (s : String)
  | obj (name : String) (email : Option String)

/-- Fields of `NpmPackageInfo` the analyzed code reads. -/
structure NpmPackageInfo where
  description : Option String := none
  keywords : Option (List String) := none
  repository : Option NpmRepoField := none
  license : Option String := none
  homepage : Option String := none

/-- Fields of `NpmPackageVersion` the analyzed code reads. Dependency records
are association lists of `name → version-range`. -/
structure NpmPackageVersion where
  description : Option String := none
  keywords : Option (List String) := none
  dependencies : Option (List (String × String)) := none
  devDependencies : Option (List (String × String)) := none
  peerDependencies : Option (List (String × String)) := none
  author : Option PkgAuthor := none
  license : Option String := none
  homepage : Option String := none

namespace NpmRegistryClient

/-- `extractGitHubUrl` (NpmRegistryClient lines 693-711): best-effort parse of
the `repository` field (string or object form) against
`github\.com\/([^\/]+)\/([^\/\.]+)`, rebuilt as a normalized URL. -/
def extractGitHubUrl (packageInfo : NpmPackageInfo) : Option String :=
  match packageInfo.repository with
  | none => none
  | some (NpmRepoField.str s) =>
    (scanGithubRepo ['/', '.'] s.toList).map
      (fun g => "https://github.com/" ++ g.1.asString ++ "/" ++ g.2.asString)
  | some (NpmRepoField.obj url) =>
    if strTruthy url then
      (scanGithubRepo ['/', '.'] (url.getD "").toList).map
        (fun g => "https://github.com/" ++ g.1.asString ++ "/" ++ g.2.asString)
    else none

end NpmRegistryClient

/-! ## PackageMetadataExtractor (RepositoryMetadataExtractor.ts lines 733-1070) -/

/-- `metadata` bag of an `NpmPackageAnalysis`. -/
structure AnalysisMetadata where
  description : Option String := none
  version : String := "unknown"
  author : Option String := none
  license : Option String := none
  keywords : Option (List String) := none
  homepage : Option String := none
  downloads : Option Nat := none
  isRecent : Bool := false

/-- `NpmPackageAnalysis` (lines 737-753). -/
structure NpmPackageAnalysis where
  packageName : String
  isMCP : Bool
  confidence : ℚ
  mcpIndicators : List String
  githubUrl : Option String := none
  metadata : AnalysisMetadata

namespace PackageMetadataExtractor

/-- `getDownloadEstimate` (lines 941-945): the source hard-codes this helper to
return `0` ("rough estimate", placeholder). -/
def getDownloadEstimate (_packageInfo : NpmPackageInfo) : Nat := 0

/-- `analyzeMCPIndicators` (lines 844-936). Sequential accumulation of the
score exactly as the source performs it. `isRecent` is the result of the
collaborator call `npmClient.isRecentlyMaintained(packageInfo)` (a comparison
of the package's last-modified timestamp against the evaluation-time clock,
NpmRegistryClient lines 716-722), passed in as an oracle because it reads the
real clock. JS numbers are modelled as exact rationals. -/
def analyzeMCPIndicators (packageName : String) (packageInfo : NpmPackageInfo)
    (versionInfo : NpmPackageVersion) (isRecent : Bool) :
    Bool × ℚ × List String :=
  let score : ℚ := 0
  let indicators : List String := []
  -- Package name analysis (40 points max)
  let nameLower := strToLower packageName
  let score := if strContains nameLower "mcp" then score + 25 else score
  let indicators := if strContains nameLower "mcp" then
    indicators ++ ["package-name-contains-mcp"] else indicators
  let score := if strContains nameLower "model" && strContains nameLower "context" then
    score + 15 else score
  let indicators := if strContains nameLower "model" && strContains nameLower "context" then
    indicators ++ ["package-name-contains-model-context"] else indicators
  -- Keywords analysis (25 points max)
  let keywords := versionInfo.keywords.getD [] ++ packageInfo.keywords.getD []
  let mcpKeywords := keywords.filter (fun k =>
    strContains (strToLower k) "mcp" || strContains (strToLower k) "model context protocol")
  let score := if mcpKeywords.length > 0 then
    score + ((min 25 (mcpKeywords.length * 10) : Nat) : ℚ) else score
  let indicators := if mcpKeywords.length > 0 then
    indicators ++ ["keywords: " ++ String.intercalate ", " mcpKeywords] else indicators
  -- Description analysis (20 points max)
  let description := jsOrStr versionInfo.description packageInfo.description
  let descLower := strToLower description
  let score :=
    if strContains descLower "mcp" || strContains descLower "model context protocol" then
      score + 20
    else if strContains descLower "model context" then score + 10
    else score
  let indicators :=
    if strContains descLower "mcp" || strContains descLower "model context protocol" then
      indicators ++ ["description-contains-mcp"]
    else if strContains descLower "model context" then
      indicators ++ ["description-contains-model-context"]
    else indicators
  -- Dependencies analysis (15 points max); object spread keeps the first
  -- occurrence of each key
  let allDepsKeys := jsSetOfList
    ((versionInfo.dependencies.getD []).map (·.1) ++
      (versionInfo.devDependencies.getD []).map (·.1) ++
      (versionInfo.peerDependencies.getD []).map (·.1))
  let mcpDeps := allDepsKeys.filter (fun dep =>
    strContains (strToLower dep) "@modelcontextprotocol" || strContains (strToLower dep) "mcp")
  let score := if mcpDeps.length > 0 then
    score + ((min 15 (mcpDeps.length * 8) : Nat) : ℚ) else score
  let indicators := if mcpDeps.length > 0 then
    indicators ++ ["dependencies: " ++ String.intercalate ", " mcpDeps] else indicators
  -- Repository analysis (bonus points)
  let githubUrl := NpmRegistryClient.extractGitHubUrl packageInfo
  let score := if githubUrl.isSome then score + 5 else score
  let indicators := if githubUrl.isSome then
    indicators ++ ["has-github-repository"] else indicators
  -- Maintenance score (penalty for old packages)
  let score := if !isRecent then score * 0.7 else score
  let indicators := if !isRecent then
    indicators ++ ["package-not-recently-maintained"] else indicators
  -- Download score (bonus for popular packages)
  let downloads := getDownloadEstimate packageInfo
  let score := if downloads > 1000 then score + 5
    else if downloads > 100 then score + 2
    else score
  let indicators := if downloads > 1000 then indicators ++ ["high-download-count"]
    else if downloads > 100 then indicators ++ ["moderate-download-count"]
    else indicators
  let confidence := min (score / 100) 1
  let isMCP := decide (confidence ≥ 0.3)
  (isMCP, confidence, indicators)

/-- `generateTags` (lines 997-1016): a `Set` fed with the MCP tags (only when
the verdict is true), the lower-cased keywords, and `npm-package`. -/
def generateTags (analysis : NpmPackageAnalysis) : List String :=
  jsSetOfList
    ((if analysis.isMCP then ["mcp", "npm", "model-context-protocol"] else []) ++
      (analysis.metadata.keywords.getD []).map strToLower ++
      ["npm-package"])

/-- JS `Number.prototype.toFixed(1)` for the nonnegative rationals produced by
confidence scoring. -/
def toFixed1 (q : ℚ) : String :=
  let tenths : Int := round (q * 10)
  toString (tenths / 10) ++ "." ++ toString (tenths % 10).natAbs

/-- `generateReadme` (lines 1021-1054): synthesize a README from the package's
own metadata. -/
def generateReadme (analysis : NpmPackageAnalysis) : String :=
  let readme := "# " ++ analysis.packageName ++ "\n\n"
  let readme := readme ++
    (match analysis.metadata.description with
     | some d => if d ≠ "" then d ++ "\n\n" else ""
     | none => "")
  let readme := readme ++ "## Installation\n\n"
  let readme := readme ++ "```bash\n"
  let readme := readme ++ "npm install " ++ analysis.packageName
  let readme := readme ++ "```\n\n"
  let readme := readme ++
    (if strTruthy analysis.githubUrl then
      "## Repository\n\n[GitHub](" ++ analysis.githubUrl.getD "" ++ ")\n\n"
    else "")
  let readme := readme ++
    (if strTruthy analysis.metadata.homepage then
      let h := analysis.metadata.homepage.getD ""
      "## Homepage\n\n[" ++ h ++ "](" ++ h ++ ")\n\n"
    else "")
  let readme := readme ++
    (if analysis.mcpIndicators.length > 0 then
      "## MCP Indicators\n\n" ++
      "This package was identified as MCP-related due to:\n" ++
      String.join (analysis.mcpIndicators.map (fun i => "- " ++ i ++ "\n")) ++
      "\n" ++
      "Confidence score: " ++ toFixed1 (analysis.confidence * 100) ++ "%\n\n"
    else "")
  readme

/-- `generateConfigTemplate` (lines 1059-1066), npm flavor. -/
def generateConfigTemplate (analysis : NpmPackageAnalysis) : ConfigTemplate :=
  { command := "node"
    args := ["./node_modules/.bin/" ++ analysis.packageName]
    env := []
    transport := Transport.stdio }

/-- `analysisToMCPServer` (lines 965-992). `now` models `new Date()`. -/
def analysisToMCPServer (now : Nat) (analysis : NpmPackageAnalysis) : MCPServer :=
  { id := "npm:" ++ analysis.packageName
    name := analysis.packageName
    description := jsOrStr analysis.metadata.description
      (some (analysis.packageName ++ " MCP server"))
    source := ServerSource.npm
    sourceUrl := "https://www.npmjs.com/package/" ++ analysis.packageName
    packageName := some analysis.packageName
    version := analysis.metadata.version
    author := jsOrStr analysis.metadata.author (some "Unknown")
    license := jsOrStr analysis.metadata.license (some "Unknown")
    tags := generateTags analysis
    readme := generateReadme analysis
    tools := []
    resources := []
    prompts := []
    configTemplate := generateConfigTemplate analysis
    requiredParams := []
    optionalParams := []
    createdAt := now
    updatedAt := now
    lastResearchedAt := now
    popularity := analysis.metadata.downloads.getD 0
    verified := false }

end PackageMetadataExtractor

/-! ## ResearchService: merge and deduplication (src/unnamed/part_009) -/

namespace ResearchService

/-- `mergeGitHubAndNpmData` (part_009 lines 226-237): keep the GitHub entry's
fields (object spread), except popularity
(`githubServer.popularity || npmServer.popularity || 0`), tags
(`Array.from(new Set([...githubServer.tags, ...npmServer.tags]))`) and readme
(`githubServer.readme.length > npmServer.readme.length ? githubServer.readme
: npmServer.readme`). -/
def mergeGitHubAndNpmData (githubServer npmServer : MCPServer) : MCPServer :=
  { githubServer with
    popularity := jsOrNat githubServer.popularity (jsOrNat npmServer.popularity 0)
    tags := jsSetOfList (githubServer.tags ++ npmServer.tags)
    readme :=
      if githubServer.readme.length > npmServer.readme.length then
        githubServer.readme
      else
        npmServer.readme }

/-- The first loop body of `deduplicateAndMerge` (part_009 lines 202-204):
`serverMap.set(server.id, server)` for a GitHub server. -/
def ghStep (m : List (String × MCPServer)) (server : MCPServer) :
    List (String × MCPServer) :=
  jsMapSet m server.id server

/-- The second loop body of `deduplicateAndMerge` (part_009 lines 207-218):
insert a new npm server; on a collision with a GitHub-sourced entry, merge via
`mergeGitHubAndNpmData`; on any other collision leave the map unchanged. -/
def npmStep (m : List (String × MCPServer)) (npmServer : MCPServer) :
    List (String × MCPServer) :=
  match jsMapGet m npmServer.id with
  | none => jsMapSet m npmServer.id npmServer
  | some existingServer =>
    if existingServer.source = ServerSource.github ∧
        npmServer.source = ServerSource.npm then
      jsMapSet m existingServer.id
        (mergeGitHubAndNpmData existingServer npmServer)
    else
      m

/-- `deduplicateAndMerge` (part_009 lines 198-221): seed a `Map` keyed by `id`
with the GitHub servers, then fold the npm servers over it. Returns
`Array.from(serverMap.values())`. -/
def deduplicateAndMerge (githubServers npmServers : List MCPServer) :
    List MCPServer :=
  let serverMap := githubServers.foldl ghStep []
  let serverMap := npmServers.foldl npmStep serverMap
  serverMap.map (·.2)

end ResearchService

/-! ## ResearchService: discovery, URL analysis, jobs (src/unnamed/part_009) -/

/-- `ResearchOptions` (part_009 lines 10-15): all fields optional. -/
structure ResearchOptions where
  query : Option String := none
  maxResults : Option Nat := none
  minStars : Option Nat := none
  includeForks : Option Bool := none

/-- One repository item of a GitHub search result (fields the service reads). -/
structure GitHubRepo where
  full_name : String
  stargazers_count : Nat
  forks_count : Nat

/-- GitHub repository-search response shape. -/
structure GitHubSearchResult where
  total_count : Nat
  items : List GitHubRepo

namespace ResearchService

/-- The repository filter inside `searchGitHub` (part_009 lines 127-131):
drop repositories under `minStars`; unless `includeForks`, drop repositories
whose fork count exceeds twice their star count. -/
def githubRepoFilter (minStars : Nat) (includeForks : Bool)
    (repo : GitHubRepo) : Bool :=
  if repo.stargazers_count < minStars then false
  else if !includeForks && decide (repo.forks_count > repo.stargazers_count * 2) then false
  else true

/-- `searchGitHub` (part_009 lines 108-158). `searchOutcome` is the settled
result of the provider call `githubClient.searchRepositories` (a rejection is
caught by the function's own `try/catch`, which falls through to returning the
accumulated — empty — list). `analyze` is
`metadataExtractor.analyzeRepository(owner, name)` for each repository,
already `Option`-valued: it returns `null` rather than throwing, and the
per-repository `catch` maps any residual rejection to `null`; `null`s are
discarded when collecting settled results. -/
def searchGitHub (maxResults minStars : Nat) (includeForks : Bool)
    (searchOutcome : Except String GitHubSearchResult)
    (analyze : GitHubRepo → Option MCPServer) : List MCPServer :=
  match searchOutcome with
  | Except.error _ => []
  | Except.ok searchResults =>
    (((searchResults.items.filter (githubRepoFilter minStars includeForks)).take
      maxResults).filterMap analyze)

/-- `searchNpm` (part_009 lines 163-193). `analysesOutcome` is the settled
result of the pipeline `npmClient.searchPackages` →
`packageExtractor.analyzeSearchResults` (a rejection of either is caught by
the function's own `try/catch`, yielding the empty list). Analyses with
`analysis.isMCP && analysis.confidence >= 0.3` are converted through
`analysisToMCPServer`. -/
def searchNpm (analysesOutcome : Except String (List NpmPackageAnalysis))
    (now : Nat) : List MCPServer :=
  match analysesOutcome with
  | Except.error _ => []
  | Except.ok analyses =>
    (analyses.filter (fun analysis =>
        analysis.isMCP && decide (analysis.confidence ≥ 0.3))).map
      (PackageMetadataExtractor.analysisToMCPServer now)

/-- The discovery cache key (part_009 line 59):
`research:<query>:<maxResults>:<minStars>` — note `includeForks` is absent. -/
def researchCacheKey (query : String) (maxResults minStars : Nat) : String :=
  "research:" ++ query ++ ":" ++ toString maxResults ++ ":" ++ toString minStars

/-- Stable sort by popularity, descending (part_009 lines 85-86:
`sort((a, b) => (b.popularity || 0) - (a.popularity || 0))`; JS `Array.sort`
is stable). -/
def sortByPopularityDesc (servers : List MCPServer) : List MCPServer :=
  servers.mergeSort (fun a b => b.popularity ≤ a.popularity)

/-- `discoverMCPServers` (part_009 lines 49-103). The Redis cache is the
association list `cache`; `githubSearchOutcome`, `analyze`, `npmAnalysesOutcome`
and `now` are the collaborator oracles threaded to the two branches. The two
branches are launched under `Promise.allSettled`; since `searchGitHub` and
`searchNpm` each catch their own errors (modelled inside those functions),
both fan-out slots are always fulfilled and the function resolves with the
merged, ranked, truncated list, also writing it to the cache (1-hour TTL). A
cache hit returns immediately. -/
def discoverMCPServers (options : ResearchOptions)
    (cache : List (String × List MCPServer))
    (githubSearchOutcome : Except String GitHubSearchResult)
    (analyze : GitHubRepo → Option MCPServer)
    (npmAnalysesOutcome : Except String (List NpmPackageAnalysis))
    (now : Nat) :
    List MCPServer × List (String × List MCPServer) :=
  let query := options.query.getD "MCP server"
  let maxResults := options.maxResults.getD 50
  let minStars := options.minStars.getD 10
  let includeForks := options.includeForks.getD false
  let cacheKey := researchCacheKey query maxResults minStars
  match jsMapGet cache cacheKey with
  | some cached => (cached, cache)
  | none =>
    let githubServers :=
      searchGitHub maxResults minStars includeForks githubSearchOutcome analyze
    let npmServers := searchNpm npmAnalysesOutcome now
    let allServers := deduplicateAndMerge githubServers npmServers
    let sortedServers := (sortByPopularityDesc allServers).take maxResults
    (sortedServers, jsMapSet cache cacheKey sortedServers)

/-- A collaborator call performed by `ResearchService.analyzeRepository`. -/
inductive ResearchOp
  | cacheGet (key : String)
  | cacheSet (key : String)
  | analyzeRepo (owner repo : String)
deriving DecidableEq, Repr

/-- `analyzeRepository` (part_009 lines 242-276), the single-URL form. The URL
is matched against `github\.com\/([^\/]+)\/([^\/]+)`; on failure the thrown
`Invalid GitHub repository URL` error is re-raised by the surrounding `catch`
as `Failed to analyze repository: ...` before any cache read or extractor
call. On success: per-URL cache check (`repo:<owner>/<repo>`, 6-hour TTL on
write), then delegation to `metadataExtractor.analyzeRepository` (which
returns `null` rather than throwing). The second component is the trace of
collaborator calls performed, in order. -/
def analyzeRepository (url : String)
    (cacheLookup : String → Option MCPServer)
    (analyze : String → String → Option MCPServer) :
    Except String (Option MCPServer) × List ResearchOp :=
  match scanGithubRepo ['/'] url.toList with
  | none =>
    (Except.error "Failed to analyze repository: Error: Invalid GitHub repository URL", [])
  | some g =>
    let owner := g.1.asString
    let repoRaw := g.2.asString
    let cleanRepo := if repoRaw.endsWith ".git" then repoRaw.dropRight 4 else repoRaw
    let cacheKey := "repo:" ++ owner ++ "/" ++ cleanRepo
    match cacheLookup cacheKey with
    | some cached => (Except.ok (some cached), [ResearchOp.cacheGet cacheKey])
    | none =>
      match analyze owner cleanRepo with
      | some server =>
        (Except.ok (some server),
          [ResearchOp.cacheGet cacheKey, ResearchOp.analyzeRepo owner cleanRepo,
            ResearchOp.cacheSet cacheKey])
      | none =>
        (Except.ok none,
          [ResearchOp.cacheGet cacheKey, ResearchOp.analyzeRepo owner cleanRepo])

/-- Job state (part_009 line 19). -/
inductive JobStatus
  | pending
  | running
  | completed
  | failed
deriving DecidableEq, Repr

/-- `ResearchJob` (part_009 lines 17-25). -/
structure ResearchJob where
  id : String
  status : JobStatus
  query : String
  results : List MCPServer
  error : Option String
  startedAt : Option Nat
  completedAt : Option Nat

/-- The job record created by `startResearchJob` (part_009 lines 281-299):
`pending`, empty results, `startedAt` set at submission; `query` is
`options.query || 'MCP server'`. -/
def startResearchJob (options : ResearchOptions) (jobId : String) (now : Nat) :
    ResearchJob :=
  { id := jobId
    status := JobStatus.pending
    query := jsOrStr options.query (some "MCP server")
    results := []
    error := none
    startedAt := some now
    completedAt := none }

/-- `runResearchJob` (part_009 lines 311-340) as the sequence of states the
job record passes through: the job as found in the registry, the `running`
update made before awaiting `discoverMCPServers`, and the terminal update.
`outcome` is the settled result of `await this.discoverMCPServers(options)`;
a rejection carrying an `Error` with message `msg` is modelled as
`Except.error msg` (the code stores `error.message`). On success the results
are stored; on failure `error` is stored and `results` is not touched.
`completedAt` is set in both terminal updates. -/
def runResearchJobStates (job : ResearchJob)
    (outcome : Except String (List MCPServer)) (tEnd : Nat) :
    List ResearchJob :=
  let runningJob := { job with status := JobStatus.running }
  match outcome with
  | Except.ok results =>
    [job, runningJob,
      { runningJob with
        status := JobStatus.completed
        results := results
        completedAt := some tEnd }]
  | Except.error msg =>
    [job, runningJob,
      { runningJob with
        status := JobStatus.failed
        error := some msg
        completedAt := some tEnd }]

end ResearchService

/-! ## RepositoryMetadataExtractor
(src/backend/src/services/research/RepositoryMetadataExtractor.ts lines 1-427) -/

/-- `PackageJson` (lines 5-19), the fields the extractor reads. Dependency and
script records are association lists. -/
structure PackageJson where
  name : Option String := none
  version : Option String := none
  description : Option String := none
  main : Option String := none
  scripts : Option (List (String × String)) := none
  dependencies : Option (List (String × String)) := none
  devDependencies : Option (List (String × String)) := none
  keywords : Option (List String) := none
  author : Option PkgAuthor := none
  license : Option String := none

/-- GitHub repository metadata, the fields the extractor reads
(`license?.name` is flattened to `licenseName`). -/
structure GitHubRepoInfo where
  stargazers_count : Nat
  description : Option String := none
  html_url : String := ""
  licenseName : Option String := none
  topics : Option (List String) := none

/-- One entry of a repository directory listing. -/
structure GitHubContentEntry where
  name : String
  path : String

/-- Collaborator oracle for the extractor: the three `GitHubAPIClient` calls it
performs (each an `Except`, `.error` = rejected promise), plus the JS
runtime's `JSON.parse` in its two usage types (`none` = `JSON.parse` threw). -/
structure GitHubEnv where
  getRepository : String → String → Except String GitHubRepoInfo
  downloadFile : String → String → String → Except String String
  getRepositoryContents : String → String → String → Except String (List GitHubContentEntry)
  parsePackageJson : String → Option PackageJson
  parseJsonValue : String → Option JsValue

/-- A `GitHubAPIClient` call performed by the extractor, for call traces. -/
inductive GHOp
  | getRepo (owner repo : String)
  | downloadFile (owner repo path : String)
  | getContents (owner repo path : String)
deriving DecidableEq, Repr

/-- `MCPMetadata` (lines 21-30). -/
structure MCPMetadata where
  hasMCP : Bool
  tools : List JsValue
  resources : List JsValue
  prompts : List JsValue
  transport : Option Transport
  command : Option String
  args : Option (List String)
  env : Option (List (String × String))

namespace RepositoryMetadataExtractor

/-- `checkPackageForMCP` (lines 199-220): MCP signal from dependency names
(spread-merged keys of `dependencies` and `devDependencies`), keywords, or the
description (case-insensitive substring checks). -/
def checkPackageForMCP (packageJson : PackageJson) : Bool :=
  let dependencies := packageJson.dependencies.getD []
  let devDependencies := packageJson.devDependencies.getD []
  let keywords := packageJson.keywords.getD []
  let description := packageJson.description.getD ""
  let allDepsKeys := jsSetOfList (dependencies.map (·.1) ++ devDependencies.map (·.1))
  let hasMCPDeps := allDepsKeys.any (fun dep =>
    strContains (strToLower dep) "mcp" || strContains (strToLower dep) "model-context-protocol")
  let hasMCPKeywords := keywords.any (fun keyword =>
    strContains (strToLower keyword) "mcp" ||
    strContains (strToLower keyword) "model context protocol")
  let hasMCPDescription := strContains (strToLower description) "mcp" ||
    strContains (strToLower description) "model context protocol"
  hasMCPDeps || hasMCPKeywords || hasMCPDescription

/-- JS `\s` for the ASCII range (the README regexes only involve ASCII). -/
def isWsChar (c : Char) : Bool :=
  c = ' ' || c = '\t' || c = '\n' || c = '\r' || c = '\x0b' || c = '\x0c'

/-- Parse `\s*:\s*"([^"]+)"` right after a `"command"` literal (which is 9
characters long); returns the capture. -/
def parseAfterCommand (l : List Char) : Option String :=
  let r := (l.drop 9).dropWhile isWsChar
  match r with
  | ':' :: r2 =>
    match r2.dropWhile isWsChar with
    | '"' :: r4 =>
      let cap := r4.takeWhile (fun ch => ch ≠ '"')
      -- `[^"]+` needs a nonempty capture and `"` needs a closing quote
      if cap ≠ [] ∧ r4.drop cap.length ≠ [] then some cap.asString else none
    | _ => none
  | _ => none

/-- All suffixes starting with a `"command"` literal that lie before the first
`\x7d` (the `[^}]*` region), leftmost first. -/
def commandCandidates : List Char → List (List Char)
  | [] => []
  | c :: rest =>
    if c = '\x7d' then []
    else
      let tail := commandCandidates rest
      if "\"command\"".toList.isPrefixOf (c :: rest) then (c :: rest) :: tail
      else tail

/-- The `[^}]*"command"\s*:\s*"([^"]+)"` tail of the README command regex:
greedy `[^}]*` prefers the rightmost viable `"command"` occurrence before the
first `\x7d`, backtracking leftwards. -/
def commandInRegion (r : List Char) : Option String :=
  (commandCandidates r).reverse.findSome? parseAfterCommand

/-- After a fence keyword: `\s*\n\s*\x7b\s*"mcpServers"\s*:\s*\x7b` then the
command region. The whitespace run before the `\x7b` must contain a newline
(`\s*\n\s*` followed by a non-whitespace character). -/
def tryAtFence (l : List Char) : Option String :=
  let ws := l.takeWhile isWsChar
  if '\n' ∈ ws then
    match l.drop ws.length with
    | '\x7b' :: r1 =>
      let r2 := r1.dropWhile isWsChar
      if "\"mcpServers\"".toList.isPrefixOf r2 then
        match (r2.drop 12).dropWhile isWsChar with
        | ':' :: r4 =>
          match r4.dropWhile isWsChar with
          | '\x7b' :: r6 => commandInRegion r6
          | _ => none
        | _ => none
      else none
    | _ => none
  else none

/-- Leftmost match of the README command regex (line 235):
`` ```(?:json|bash|sh)\s*\n\s*\x7b\s*"mcpServers"\s*:\s*\x7b[^}]*"command"\s*:\s*"([^"]+)" ``
(alternation tried in source order at each position). -/
def extractReadmeCommand : List Char → Option String
  | [] => none
  | c :: rest =>
    let here :=
      (if "```json".toList.isPrefixOf (c :: rest) then
        tryAtFence ((c :: rest).drop 7) else none) <|>
      (if "```bash".toList.isPrefixOf (c :: rest) then
        tryAtFence ((c :: rest).drop 7) else none) <|>
      (if "```sh".toList.isPrefixOf (c :: rest) then
        tryAtFence ((c :: rest).drop 5) else none)
    match here with
    | some cmd => some cmd
    | none => extractReadmeCommand rest

/-- The partial metadata `extractMCPFromReadme` returns: a field is `some`
exactly when the source sets the corresponding property on the partial
object (so that `Object.assign` semantics can be modelled). -/
structure ReadmeMCP where
  hasMCP : Bool
  command : Option String := none
  transport : Option Transport := none

/-- `extractMCPFromReadme` (lines 225-248): gate on
`/MCP|Model Context Protocol/i`, then extract a command from a fenced
`mcpServers` block and a transport from `stdio` / `sse` /
`server-sent events` mentions (these two checks are case-sensitive). -/
def extractMCPFromReadme (readme : String) : ReadmeMCP :=
  if strContains (strToLower readme) "mcp" ||
      strContains (strToLower readme) "model context protocol" then
    { hasMCP := true
      command := extractReadmeCommand readme.toList
      transport :=
        if strContains readme "stdio" then some Transport.stdio
        else if strContains readme "sse" || strContains readme "server-sent events" then
          some Transport.sse
        else none }
  else
    { hasMCP := false }

/-- `parseSimpleYAML` (lines 294-322): flat `key: value` lines with inline
arrays and inline JSON objects; `none` models the function throwing (which
happens only when `JSON.parse` throws on an inline object). -/
def parseSimpleYAML (parseJsonValue : String → Option JsValue)
    (content : String) : Option JsValue :=
  (content.splitOn "\n" |>.foldlM
    (fun (result : List (String × JsValue)) (line : String) => do
      let trimmed := line.trim
      if trimmed.startsWith "#" || trimmed = "" then
        pure result
      else
        match (trimmed.toList.findIdx? (fun ch => ch = ':')) with
        | some colonIndex =>
          if colonIndex > 0 then
            let key := (trimmed.toList.take colonIndex).asString.trim
            let value := (trimmed.toList.drop (colonIndex + 1)).asString.trim
            if value.startsWith "[" && value.endsWith "]" then
              let inner := (value.toList.drop 1).dropLast.asString
              let items := (inner.splitOn ",").map (fun (item : String) =>
                JsValue.str ((item.trim.toList.filter (fun ch => ch ≠ '"')).asString))
              pure (jsMapSet result key (JsValue.arr items))
            else if value.startsWith "\x7b" && value.endsWith "\x7d" then
              match parseJsonValue value with
              | some v => pure (jsMapSet result key v)
              | none => none
            else
              pure (jsMapSet result key
                (JsValue.str ((value.toList.filter (fun ch => ch ≠ '"')).asString)))
          else
            pure result
        | none => pure result)
    []).map JsValue.obj

/-- `data.<k> && Array.isArray(data.<k>)`: the field exists on an object
value and is an array. (On a non-object the property access either yields
`undefined` — falsy — or throws and is caught by the surrounding handler;
both end in the same empty partial result.) -/
def objGetArr (v : JsValue) (k : String) : Option (List JsValue) :=
  match v with
  | JsValue.obj fields =>
    match jsMapGet fields k with
    | some (JsValue.arr l) => some l
    | _ => none
  | _ => none

/-- The partial metadata `extractMCPFromSchemaFile` returns. -/
structure SchemaMCP where
  hasMCP : Bool
  tools : List JsValue
  resources : List JsValue
  prompts : List JsValue

/-- `extractMCPFromSchemaFile` (lines 253-289): parse `.json` via `JSON.parse`
and `.yaml`/`.yml` via the YAML subset parser (parse errors are caught,
yielding the empty partial; other extensions return it directly), then treat a
`tools` / `resources` / `prompts` array field as a positive signal. -/
def extractMCPFromSchemaFile (parseJsonValue : String → Option JsValue)
    (content filename : String) : SchemaMCP :=
  let empty : SchemaMCP := { hasMCP := false, tools := [], resources := [], prompts := [] }
  let dataOpt : Option JsValue :=
    if filename.endsWith ".json" then parseJsonValue content
    else if filename.endsWith ".yaml" || filename.endsWith ".yml" then
      parseSimpleYAML parseJsonValue content
    else none
  match dataOpt with
  | none => empty
  | some data =>
    let md := empty
    let md := match objGetArr data "tools" with
      | some l => { md with hasMCP := true, tools := l }
      | none => md
    let md := match objGetArr data "resources" with
      | some l => { md with hasMCP := true, resources := l }
      | none => md
    let md := match objGetArr data "prompts" with
      | some l => { md with hasMCP := true, prompts := l }
      | none => md
    md

/-- `extractMCPMetadata` (lines 129-194): combine the package.json detector,
the README detector (merged via `Object.assign`), and the schema-file
detector (directory listing filtered to mcp/schema/JSON/YAML names, first 5
files downloaded and parsed, accumulating all hits). Returns the metadata and
the trace of collaborator calls. -/
def extractMCPMetadata (env : GitHubEnv) (owner repo : String)
    (packageJson : Option PackageJson) (readme : String) :
    MCPMetadata × List GHOp :=
  let metadata : MCPMetadata :=
    { hasMCP := false, tools := [], resources := [], prompts := []
      transport := none, command := none, args := none, env := none }
  let metadata :=
    match packageJson with
    | some pkg =>
      if checkPackageForMCP pkg then
        { metadata with hasMCP := true, command := pkg.name }
      else metadata
    | none => metadata
  let metadata :=
    if readme ≠ "" then
      let readmeMCP := extractMCPFromReadme readme
      if readmeMCP.hasMCP then
        { metadata with
          hasMCP := true
          command := match readmeMCP.command with
            | some c => some c
            | none => metadata.command
          transport := match readmeMCP.transport with
            | some t => some t
            | none => metadata.transport }
      else metadata
    else metadata
  match env.getRepositoryContents owner repo "" with
  | Except.error _ => (metadata, [GHOp.getContents owner repo ""])
  | Except.ok rootContents =>
    let mcpFiles := rootContents.filter (fun file =>
      strContains file.name "mcp" || strContains file.name "schema" ||
      file.name.endsWith ".json" || file.name.endsWith ".yaml" ||
      file.name.endsWith ".yml")
    (mcpFiles.take 5).foldl
      (fun acc file =>
        match env.downloadFile owner repo file.path with
        | Except.error _ =>
          (acc.1, acc.2 ++ [GHOp.downloadFile owner repo file.path])
        | Except.ok content =>
          let fileMetadata := extractMCPFromSchemaFile env.parseJsonValue content file.name
          if fileMetadata.hasMCP then
            ({ acc.1 with
                hasMCP := true
                tools := acc.1.tools ++ fileMetadata.tools
                resources := acc.1.resources ++ fileMetadata.resources
                prompts := acc.1.prompts ++ fileMetadata.prompts },
              acc.2 ++ [GHOp.downloadFile owner repo file.path])
          else
            (acc.1, acc.2 ++ [GHOp.downloadFile owner repo file.path]))
      (metadata, [GHOp.getContents owner repo ""])

/-- `generateConfigTemplate` (lines 327-334):
`command: metadata.command || packageJson?.name || 'node'`,
`args: metadata.args || (packageJson?.main ? [packageJson.main] : [])`
(a present array, even empty, is truthy), `env: metadata.env || \x7b\x7d`,
`transport: metadata.transport || 'stdio'`. -/
def generateConfigTemplate (metadata : MCPMetadata)
    (packageJson : Option PackageJson) : ConfigTemplate :=
  { command := jsOrStr metadata.command
      (some (jsOrStr (packageJson.bind (·.name)) (some "node")))
    args :=
      match metadata.args with
      | some l => l
      | none =>
        if strTruthy (packageJson.bind (·.main)) then
          [(packageJson.bind (·.main)).getD ""]
        else []
    env := metadata.env.getD []
    transport := metadata.transport.getD Transport.stdio }

/-- A (simplified but executable) model of JS `!isNaN(Number(value))` for a
nonempty string: whitespace-only coerces to `0`; otherwise an optionally
signed decimal (with optional fraction and exponent), `Infinity`, or a
`0x`/`0b`/`0o` literal. -/
def jsIsNumericString (value : String) : Bool :=
  let t := value.trim
  if t = "" then true
  else
    let core := match t.toList with
      | '+' :: r => r
      | '-' :: r => r
      | r => r
    let decimalCore (l : List Char) : Bool :=
      let intPart := l.takeWhile Char.isDigit
      let r1 := l.drop intPart.length
      let (fracPart, r2) := match r1 with
        | '.' :: r => (r.takeWhile Char.isDigit, (r.dropWhile Char.isDigit : List Char))
        | _ => ([], r1)
      if intPart = [] ∧ fracPart = [] then false
      else match r2 with
        | [] => true
        | 'e' :: r | 'E' :: r =>
          let r' := match r with
            | '+' :: s => s
            | '-' :: s => s
            | s => s
          r' ≠ [] ∧ r'.all Char.isDigit
        | _ => false
    if core = "Infinity".toList then true
    else match core with
      | '0' :: 'x' :: r => r ≠ [] ∧ r.all (fun c => c.isDigit || ('a' ≤ c.toLower ∧ c.toLower ≤ 'f'))
      | '0' :: 'X' :: r => r ≠ [] ∧ r.all (fun c => c.isDigit || ('a' ≤ c.toLower ∧ c.toLower ≤ 'f'))
      | '0' :: 'b' :: r => r ≠ [] ∧ r.all (fun c => c = '0' ∨ c = '1')
      | '0' :: 'o' :: r => r ≠ [] ∧ r.all (fun c => '0' ≤ c ∧ c ≤ '7')
      | l => decimalCore l

/-- `inferParamType` (lines 368-394). -/
def inferParamType (value : String) : ParamType :=
  if value = "" then ParamType.string
  else if strContains (strToLower value) "key" || strContains (strToLower value) "token" ||
      strContains (strToLower value) "secret" then ParamType.secret
  else if strContains value "/" || strContains value "\\" || strContains value "." then
    ParamType.path
  else if jsIsNumericString value then ParamType.number
  else if strToLower value = "true" || strToLower value = "false" then ParamType.boolean
  else ParamType.string

/-- `extractParameters` (lines 339-363): each env entry becomes a parameter;
required iff its value is empty, else optional with the value as default. -/
def extractParameters (configTemplate : ConfigTemplate) :
    List ConfigParam × List ConfigParam :=
  configTemplate.env.foldl
    (fun acc kv =>
      let param : ConfigParam :=
        { key := kv.1
          type := inferParamType kv.2
          description := "Environment variable for " ++ kv.1
          required := kv.2 = ""
          default := if kv.2 = "" then none else some kv.2 }
      if param.required then (acc.1 ++ [param], acc.2) else (acc.1, acc.2 ++ [param]))
    ([], [])

/-- `extractAuthor` (lines 399-407); a falsy (empty-string) author also yields
`Unknown`. -/
def extractAuthor (packageJson : Option PackageJson) : String :=
  match packageJson.bind (·.author) with
  | none => "Unknown"
  | some (PkgAuthor.str s) => if s = "" then "Unknown" else s
  | some (PkgAuthor.obj name _) => name

/-- `extractTags` (lines 412-426): GitHub topics, package keywords, and the
two fixed protocol tags, deduplicated in insertion order. -/
def extractTags (packageJson : Option PackageJson) (repoInfo : GitHubRepoInfo) :
    List String :=
  jsSetOfList
    (repoInfo.topics.getD [] ++
      ((packageJson.map (fun p => p.keywords.getD [])).getD []) ++
      ["mcp", "model-context-protocol"])

/-- The README fetch loop (lines 64-74): try the conventional filename casings
in order, stop at the first success, `""` if all fail. -/
def fetchReadme (env : GitHubEnv) (owner repo : String) :
    List String → String × List GHOp
  | [] => ("", [])
  | p :: rest =>
    match env.downloadFile owner repo p with
    | Except.ok content => (content, [GHOp.downloadFile owner repo p])
    | Except.error _ =>
      let r := fetchReadme env owner repo rest
      (r.1, GHOp.downloadFile owner repo p :: r.2)

/-- `analyzeRepository` (lines 42-124). Returns the result (`none` both for
the star-floor/no-signal skips and for the outer catch of a failed repository
fetch) together with the ordered trace of `GitHubAPIClient` calls. `now`
models `new Date()`. -/
def analyzeRepository (env : GitHubEnv) (now : Nat) (owner repo : String) :
    Option MCPServer × List GHOp :=
  match env.getRepository owner repo with
  | Except.error _ => (none, [GHOp.getRepo owner repo])
  | Except.ok repoInfo =>
    -- Skip if repository has too few stars
    if repoInfo.stargazers_count < 5 then
      (none, [GHOp.getRepo owner repo])
    else
      let pkgStep : Option PackageJson × List GHOp :=
        match env.downloadFile owner repo "package.json" with
        | Except.ok content =>
          (env.parsePackageJson content, [GHOp.downloadFile owner repo "package.json"])
        | Except.error _ => (none, [GHOp.downloadFile owner repo "package.json"])
      let packageJson := pkgStep.1
      let readmeStep := fetchReadme env owner repo ["README.md", "readme.md", "README.MD"]
      let readme := readmeStep.1
      let mcpStep := extractMCPMetadata env owner repo packageJson readme
      let mcpMetadata := mcpStep.1
      let ops := GHOp.getRepo owner repo :: (pkgStep.2 ++ readmeStep.2 ++ mcpStep.2)
      if !mcpMetadata.hasMCP then (none, ops)
      else
        let configTemplate := generateConfigTemplate mcpMetadata packageJson
        let params := extractParameters configTemplate
        (some
          { id := owner ++ "/" ++ repo
            name := jsOrStr (packageJson.bind (·.name)) (some repo)
            description := jsOrStr (packageJson.bind (·.description)) repoInfo.description
            source := ServerSource.github
            sourceUrl := repoInfo.html_url
            packageName := packageJson.bind (·.name)
            version := jsOrStr (packageJson.bind (·.version)) (some "latest")
            author := extractAuthor packageJson
            license := jsOrStr (packageJson.bind (·.license)) repoInfo.licenseName
            tags := extractTags packageJson repoInfo
            readme := readme
            tools := mcpMetadata.tools
            resources := mcpMetadata.resources
            prompts := mcpMetadata.prompts
            configTemplate := configTemplate
            requiredParams := params.1
            optionalParams := params.2
            createdAt := now
            updatedAt := now
            lastResearchedAt := now
            popularity := repoInfo.stargazers_count
            verified := false }, ops)

end RepositoryMetadataExtractor

/-! ## Basic lemmas about the JS-semantics primitives -/

theorem mem_jsSetAdd {acc : List String} {x y : String} :
    x ∈ jsSetAdd acc y ↔ x ∈ acc ∨ x = y := by
  unfold jsSetAdd
  split
  case isTrue h =>
    exact ⟨fun hx => Or.inl hx, fun hx => hx.elim id (fun hxy => hxy ▸ h)⟩
  case isFalse h =>
    simp [or_comm]

theorem nodup_jsSetAdd {acc : List String} {y : String} (h : acc.Nodup) :
    (jsSetAdd acc y).Nodup := by
  unfold jsSetAdd
  split
  case isTrue _ => exact h
  case isFalse hy => simpa [List.nodup_append, h] using hy

theorem mem_foldl_jsSetAdd (l : List String) :
    ∀ (acc : List String) (x : String),
      x ∈ l.foldl jsSetAdd acc ↔ x ∈ acc ∨ x ∈ l := by
  induction l with
  | nil => intro acc x; simp
  | cons hd tl ih =>
    intro acc x
    rw [List.foldl_cons, ih, mem_jsSetAdd, List.mem_cons]
    tauto

theorem nodup_foldl_jsSetAdd (l : List String) :
    ∀ (acc : List String), acc.Nodup → (l.foldl jsSetAdd acc).Nodup := by
  induction l with
  | nil => intro acc h; simpa using h
  | cons hd tl ih =>
    intro acc h
    exact ih _ (nodup_jsSetAdd h)

theorem mem_jsSetOfList {l : List String} {x : String} :
    x ∈ jsSetOfList l ↔ x ∈ l := by
  unfold jsSetOfList
  rw [mem_foldl_jsSetAdd]
  simp

theorem nodup_jsSetOfList (l : List String) : (jsSetOfList l).Nodup :=
  nodup_foldl_jsSetAdd l [] List.nodup_nil

theorem jsMapAny_iff {α : Type} (m : List (String × α)) (k : String) :
    (m.any (fun p => p.1 = k)) = true ↔ k ∈ m.map (·.1) := by
  induction m with
  | nil => simp
  | cons hd tl ih =>
    simp only [List.any_cons, List.map_cons, List.mem_cons, Bool.or_eq_true,
      decide_eq_true_eq, ih]
    tauto

theorem jsMapSet_of_mem {α : Type} {m : List (String × α)} {k : String}
    (v : α) (h : k ∈ m.map (·.1)) :
    jsMapSet m k v = m.map (fun p => if p.1 = k then (k, v) else p) := by
  unfold jsMapSet
  rw [if_pos ((jsMapAny_iff m k).mpr h)]

theorem jsMapSet_of_not_mem {α : Type} {m : List (String × α)} {k : String}
    (v : α) (h : k ∉ m.map (·.1)) :
    jsMapSet m k v = m ++ [(k, v)] := by
  unfold jsMapSet
  rw [if_neg]
  intro hc
  exact h ((jsMapAny_iff m k).mp hc)

theorem keys_jsMapSet {α : Type} (m : List (String × α)) (k : String) (v : α) :
    (jsMapSet m k v).map (·.1) = jsSetAdd (m.map (·.1)) k := by
  by_cases h : k ∈ m.map (·.1)
  · rw [jsMapSet_of_mem v h]
    unfold jsSetAdd
    rw [if_pos h, List.map_map]
    apply List.map_congr_left
    intro p _
    by_cases hp : p.1 = k
    · simp [hp]
    · simp [hp]
  · rw [jsMapSet_of_not_mem v h]
    unfold jsSetAdd
    rw [if_neg h]
    simp

theorem jsMapGet_cons_pos {α : Type} {hd : String × α} {tl : List (String × α)}
    {k : String} (h : hd.1 = k) : jsMapGet (hd :: tl) k = some hd.2 := by
  simp [jsMapGet, List.find?_cons_of_pos, h]

theorem jsMapGet_cons_neg {α : Type} {hd : String × α} {tl : List (String × α)}
    {k : String} (h : hd.1 ≠ k) : jsMapGet (hd :: tl) k = jsMapGet tl k := by
  simp only [jsMapGet]
  rw [List.find?_cons_of_neg]
  simpa using h

theorem jsMapGet_eq_none {α : Type} (m : List (String × α)) (k : String) :
    jsMapGet m k = none ↔ k ∉ m.map (·.1) := by
  induction m with
  | nil => simp [jsMapGet]
  | cons hd tl ih =>
    by_cases h : hd.1 = k
    · rw [jsMapGet_cons_pos h]
      simp [h]
    · rw [jsMapGet_cons_neg h, ih]
      simp only [List.map_cons, List.mem_cons]
      constructor
      · intro hn hc
        rcases hc with hc | hc
        · exact h hc.symm
        · exact hn hc
      · intro hn hc
        exact hn (Or.inr hc)

theorem jsMapGet_mem {α : Type} {m : List (String × α)} {k : String} {v : α}
    (h : jsMapGet m k = some v) : (k, v) ∈ m := by
  induction m with
  | nil => simp [jsMapGet] at h
  | cons hd tl ih =>
    by_cases hk : hd.1 = k
    · rw [jsMapGet_cons_pos hk] at h
      have hv : hd.2 = v := Option.some.inj h
      have hkv : (k, v) = hd := by
        obtain ⟨a, b⟩ := hd
        simp only at hk hv
        rw [hk, hv]
      rw [hkv]
      exact List.mem_cons_self _ _
    · rw [jsMapGet_cons_neg hk] at h
      exact List.mem_cons_of_mem _ (ih h)

theorem jsMapGet_jsMapSet_self {α : Type} (m : List (String × α)) (k : String)
    (v : α) : jsMapGet (jsMapSet m k v) k = some v := by
  by_cases h : k ∈ m.map (·.1)
  · rw [jsMapSet_of_mem v h]
    induction m with
    | nil => simp at h
    | cons hd tl ih =>
      by_cases hk : hd.1 = k
      · rw [List.map_cons, if_pos hk]
        exact jsMapGet_cons_pos rfl
      · rw [List.map_cons, if_neg hk]
        rw [jsMapGet_cons_neg hk]
        simp only [List.map_cons, List.mem_cons] at h
        rcases h with h | h
        · exact absurd h.symm hk
        · exact ih h
  · rw [jsMapSet_of_not_mem v h]
    induction m with
    | nil => exact jsMapGet_cons_pos rfl
    | cons hd tl ih =>
      simp only [List.map_cons, List.mem_cons] at h
      push_neg at h
      rw [List.cons_append, jsMapGet_cons_neg (fun hc => h.1 hc.symm)]
      exact ih h.2

/-! ## Example values used by witnesses -/

/-- A catalog entry with given identity/source/popularity/tags/readme and
neutral remaining fields, for concrete instantiations. -/
def exampleServer (id : String) (source : ServerSource) (popularity : Nat)
    (tags : List String) (readme : String) : MCPServer :=
  { id := id
    name := id
    description := ""
    source := source
    sourceUrl := ""
    packageName := none
    version := "1.0.0"
    author := ""
    license := ""
    tags := tags
    readme := readme
    tools := []
    resources := []
    prompts := []
    configTemplate :=
      { command := "node", args := [], env := [], transport := Transport.stdio }
    requiredParams := []
    optionalParams := []
    createdAt := 0
    updatedAt := 0
    lastResearchedAt := 0
    popularity := popularity
    verified := false }

/-! ## Claim C1 -/

/-- C1: for every merge collision, the merged entry keeps the repository
(GitHub) entry's fields except popularity — which is the first-truthy of
repository popularity, then registry popularity, then 0 (so a repository
popularity of 0 falls through to the registry popularity, not the max) —
tags, which become the duplicate-free union of both tag lists, and the
README, which is whichever of the two strings is longer. -/
theorem claim_C1_merge_semantics (githubServer npmServer : MCPServer) :
    let m := ResearchService.mergeGitHubAndNpmData githubServer npmServer
    (m.id = githubServer.id ∧ m.name = githubServer.name ∧
      m.description = githubServer.description ∧
      m.source = githubServer.source ∧
      m.sourceUrl = githubServer.sourceUrl ∧
      m.packageName = githubServer.packageName ∧
      m.version = githubServer.version ∧
      m.author = githubServer.author ∧
      m.license = githubServer.license ∧
      m.tools = githubServer.tools ∧
      m.resources = githubServer.resources ∧
      m.prompts = githubServer.prompts ∧
      m.configTemplate = githubServer.configTemplate ∧
      m.requiredParams = githubServer.requiredParams ∧
      m.optionalParams = githubServer.optionalParams ∧
      m.verified = githubServer.verified) ∧
    m.popularity = (if githubServer.popularity ≠ 0 then githubServer.popularity
      else if npmServer.popularity ≠ 0 then npmServer.popularity else 0) ∧
    (githubServer.popularity = 0 → m.popularity = npmServer.popularity) ∧
    (∀ t, t ∈ m.tags ↔ t ∈ githubServer.tags ∨ t ∈ npmServer.tags) ∧
    m.tags.Nodup ∧
    (npmServer.readme.length < githubServer.readme.length →
      m.readme = githubServer.readme) ∧
    (githubServer.readme.length < npmServer.readme.length →
      m.readme = npmServer.readme) ∧
    m.readme.length = max githubServer.readme.length npmServer.readme.length := by
  dsimp only
  unfold ResearchService.mergeGitHubAndNpmData
  refine ⟨⟨rfl, rfl, rfl, rfl, rfl, rfl, rfl, rfl, rfl, rfl, rfl, rfl, rfl, rfl,
    rfl, rfl⟩, ?_, ?_, ?_, ?_, ?_, ?_, ?_⟩
  · show jsOrNat _ _ = _
    unfold jsOrNat
    split_ifs <;> omega
  · intro h
    show jsOrNat _ _ = _
    unfold jsOrNat
    split_ifs <;> omega
  · intro t
    show t ∈ jsSetOfList _ ↔ _
    rw [mem_jsSetOfList, List.mem_append]
  · exact nodup_jsSetOfList _
  · intro h
    exact if_pos h
  · intro h
    exact if_neg (by omega)
  · show (if githubServer.readme.length > npmServer.readme.length then
        githubServer.readme else npmServer.readme).length =
      max githubServer.readme.length npmServer.readme.length
    split_ifs <;> omega

/-- Witness for C1: a GitHub entry with popularity 0 merged with an npm entry
with popularity 42 yields popularity 42 (first-truthy, not the GitHub value),
and the longer README (here the npm one) is kept. -/
theorem claim_C1_merge_semantics_witness :
    (ResearchService.mergeGitHubAndNpmData
        (exampleServer "acme/fs-mcp" ServerSource.github 0 ["github-tag"] "short")
        (exampleServer "acme/fs-mcp" ServerSource.npm 42 ["npm-tag"]
          "a longer readme")).popularity = 42 ∧
    (ResearchService.mergeGitHubAndNpmData
        (exampleServer "acme/fs-mcp" ServerSource.github 0 ["github-tag"] "short")
        (exampleServer "acme/fs-mcp" ServerSource.npm 42 ["npm-tag"]
          "a longer readme")).readme = "a longer readme" := by
  obtain ⟨-, -, hpop0, -, -, -, hnpmLonger, -⟩ :=
    claim_C1_merge_semantics
      (exampleServer "acme/fs-mcp" ServerSource.github 0 ["github-tag"] "short")
      (exampleServer "acme/fs-mcp" ServerSource.npm 42 ["npm-tag"]
        "a longer readme")
  exact ⟨hpop0 rfl, hnpmLonger (by decide)⟩

/-! ## Claim C3 -/

/-- Package metadata whose only signal is a derivable GitHub repository URL. -/
def pkgInfoRepoOnly : NpmPackageInfo :=
  { repository := some (NpmRepoField.str "https://github.com/acme/tool") }

/-- C3: the MCP verdict is `isMCP = (confidence >= 0.3)` with the boundary
inclusive on the pass side, and the registry branch converts exactly the
analyses meeting this threshold into catalog entries. The hypothesis `hwf`
records that every analysis fed to the branch carries a verdict computed by
this rule (true for `analyzePackage`: it takes the pair straight from
`analyzeMCPIndicators`, and its error fallback `isMCP = false`,
`confidence = 0` also satisfies it). -/
theorem claim_C3_confidence_threshold (packageName : String)
    (packageInfo : NpmPackageInfo) (versionInfo : NpmPackageVersion)
    (isRecent : Bool) (analyses : List NpmPackageAnalysis) (now : Nat)
    (hwf : ∀ a ∈ analyses, a.isMCP = decide ((0.3:ℚ) ≤ a.confidence)) :
    ((PackageMetadataExtractor.analyzeMCPIndicators packageName packageInfo
        versionInfo isRecent).1 = true ↔
      (0.3:ℚ) ≤ (PackageMetadataExtractor.analyzeMCPIndicators packageName
        packageInfo versionInfo isRecent).2.1) ∧
    ((PackageMetadataExtractor.analyzeMCPIndicators packageName packageInfo
        versionInfo isRecent).2.1 = 0.3 →
      (PackageMetadataExtractor.analyzeMCPIndicators packageName packageInfo
        versionInfo isRecent).1 = true) ∧
    ((PackageMetadataExtractor.analyzeMCPIndicators packageName packageInfo
        versionInfo isRecent).2.1 < 0.3 →
      (PackageMetadataExtractor.analyzeMCPIndicators packageName packageInfo
        versionInfo isRecent).1 = false) ∧
    (∀ s, s ∈ ResearchService.searchNpm (Except.ok analyses) now ↔
      ∃ a ∈ analyses, (0.3:ℚ) ≤ a.confidence ∧
        s = PackageMetadataExtractor.analysisToMCPServer now a) := by
  have hr : (PackageMetadataExtractor.analyzeMCPIndicators packageName packageInfo
      versionInfo isRecent).1 =
      decide ((0.3:ℚ) ≤ (PackageMetadataExtractor.analyzeMCPIndicators packageName
        packageInfo versionInfo isRecent).2.1) := rfl
  refine ⟨?_, ?_, ?_, ?_⟩
  · rw [hr]
    exact decide_eq_true_iff
  · intro h
    rw [hr, h]
    simp
  · intro h
    rw [hr]
    exact decide_eq_false (not_le.mpr h)
  · intro s
    show s ∈ (analyses.filter _).map _ ↔ _
    rw [List.mem_map]
    constructor
    · rintro ⟨a, haf, rfl⟩
      rw [List.mem_filter] at haf
      obtain ⟨ha, hcond⟩ := haf
      refine ⟨a, ha, ?_, rfl⟩
      rw [Bool.and_eq_true] at hcond
      exact of_decide_eq_true hcond.2
    · rintro ⟨a, ha, hconf, rfl⟩
      refine ⟨a, ?_, rfl⟩
      rw [List.mem_filter]
      refine ⟨ha, ?_⟩
      rw [Bool.and_eq_true, hwf a ha]
      exact ⟨decide_eq_true hconf, decide_eq_true hconf⟩

/-- Witness for C3: `mcp-tool` with a derivable repository URL scores exactly
25 + 5 = 30, confidence exactly 0.3, verdict true; `plain-tool` with no
signals has confidence 0 < 0.3, verdict false. -/
theorem claim_C3_confidence_threshold_witness :
    (PackageMetadataExtractor.analyzeMCPIndicators "mcp-tool" pkgInfoRepoOnly
      {} true).2.1 = 0.3 ∧
    (PackageMetadataExtractor.analyzeMCPIndicators "mcp-tool" pkgInfoRepoOnly
      {} true).1 = true ∧
    (PackageMetadataExtractor.analyzeMCPIndicators "plain-tool" {} {} true).2.1 < 0.3 ∧
    (PackageMetadataExtractor.analyzeMCPIndicators "plain-tool" {} {} true).1 = false := by
  have h1 := claim_C3_confidence_threshold "mcp-tool" pkgInfoRepoOnly {} true [] 0
    (by intro a ha; cases ha)
  have h2 := claim_C3_confidence_threshold "plain-tool" {} {} true [] 0
    (by intro a ha; cases ha)
  have c1 : strContains (strToLower "mcp-tool") "mcp" = true := by decide
  have c2 : (strContains (strToLower "mcp-tool") "model" &&
      strContains (strToLower "mcp-tool") "context") = false := by decide
  have c3 : NpmRegistryClient.extractGitHubUrl pkgInfoRepoOnly =
      some "https://github.com/acme/tool" := by decide
  have c4 : (NpmRegistryClient.extractGitHubUrl
      { description := none, keywords := none,
        repository := some (NpmRepoField.str "https://github.com/acme/tool"),
        license := none, homepage := none }).isSome = true := by decide
  have cd1 : strContains (strToLower "") "mcp" = false := by decide
  have cd2 : strContains (strToLower "") "model context protocol" = false := by decide
  have cd3 : strContains (strToLower "") "model context" = false := by decide
  have e1 : strContains (strToLower "plain-tool") "mcp" = false := by decide
  have e2 : (strContains (strToLower "plain-tool") "model" &&
      strContains (strToLower "plain-tool") "context") = false := by decide
  have e3 : NpmRegistryClient.extractGitHubUrl
      ({} : NpmPackageInfo) = none := by decide
  have hconfA : (PackageMetadataExtractor.analyzeMCPIndicators "mcp-tool"
      pkgInfoRepoOnly {} true).2.1 = 0.3 := by
    unfold PackageMetadataExtractor.analyzeMCPIndicators
    simp [c1, c2, c3, c4, cd1, cd2, cd3, jsOrStr, strTruthy, jsSetOfList,
      pkgInfoRepoOnly, PackageMetadataExtractor.getDownloadEstimate]
    norm_num [min_def]
  have hconfB : (PackageMetadataExtractor.analyzeMCPIndicators "plain-tool"
      ({} : NpmPackageInfo) {} true).2.1 = 0 := by
    unfold PackageMetadataExtractor.analyzeMCPIndicators
    simp [e1, e2, e3, cd1, cd2, cd3, jsOrStr, strTruthy, jsSetOfList,
      PackageMetadataExtractor.getDownloadEstimate]
  refine ⟨hconfA, h1.2.1 hconfA, ?_, h2.2.2.1 ?_⟩
  · rw [hconfB]; norm_num
  · rw [hconfB]; norm_num

/-! ## Claim C6 -/

/-- Auxiliary: rewriting inside `min (· / 100) 1`. -/
theorem minConfAux (a b : ℚ) (h : a = b) : min (a / 100) 1 = min (b / 100) 1 := by
  rw [h]

/-- Auxiliary: `if (c) { score += k }` as adding an if-valued increment. -/
theorem ite_add_extract (c : Prop) [Decidable c] (x k : ℚ) :
    (if c then x + k else x) = x + (if c then k else 0) := by
  split_ifs <;> ring

/-- Auxiliary: increment form once the inner branch is already extracted. -/
theorem ite_add_extract2 (c : Prop) [Decidable c] (x a y : ℚ) :
    (if c then x + a else x + y) = x + (if c then a else y) := by
  split_ifs <;> ring

/-- The package-name term of the §4.4 scoring (+25 for `mcp`, +15 for
`model`+`context`), stated independently of the sequential accumulation. -/
def mcpNameScore (packageName : String) : ℚ :=
  (if strContains (strToLower packageName) "mcp" then 25 else 0) +
  (if strContains (strToLower packageName) "model" &&
      strContains (strToLower packageName) "context" then 15 else 0)

/-- The keywords term (+10 per matching keyword, capped at 25). -/
def mcpKeywordScore (packageInfo : NpmPackageInfo)
    (versionInfo : NpmPackageVersion) : ℚ :=
  let keywords := versionInfo.keywords.getD [] ++ packageInfo.keywords.getD []
  let mcpKeywords := keywords.filter (fun k =>
    strContains (strToLower k) "mcp" ||
    strContains (strToLower k) "model context protocol")
  if mcpKeywords.length > 0 then ((min 25 (mcpKeywords.length * 10) : Nat) : ℚ)
  else 0

/-- The description term (+20 for `mcp`/full expansion, else +10 for
`model context`). -/
def mcpDescriptionScore (packageInfo : NpmPackageInfo)
    (versionInfo : NpmPackageVersion) : ℚ :=
  let descLower := strToLower (jsOrStr versionInfo.description packageInfo.description)
  if strContains descLower "mcp" || strContains descLower "model context protocol" then 20
  else if strContains descLower "model context" then 10
  else 0

/-- The dependencies term (+8 per matching dependency, capped at 15). -/
def mcpDependencyScore (versionInfo : NpmPackageVersion) : ℚ :=
  let allDepsKeys := jsSetOfList
    ((versionInfo.dependencies.getD []).map (·.1) ++
      (versionInfo.devDependencies.getD []).map (·.1) ++
      (versionInfo.peerDependencies.getD []).map (·.1))
  let mcpDeps := allDepsKeys.filter (fun dep =>
    strContains (strToLower dep) "@modelcontextprotocol" ||
    strContains (strToLower dep) "mcp")
  if mcpDeps.length > 0 then ((min 15 (mcpDeps.length * 8) : Nat) : ℚ) else 0

/-- The repository-URL bonus (+5 flat). -/
def mcpRepositoryBonus (packageInfo : NpmPackageInfo) : ℚ :=
  if (NpmRegistryClient.extractGitHubUrl packageInfo).isSome then 5 else 0

/-- The sum of all five additive terms of the §4.4 scoring. -/
def mcpAdditiveSubtotal (packageName : String) (packageInfo : NpmPackageInfo)
    (versionInfo : NpmPackageVersion) : ℚ :=
  mcpNameScore packageName + mcpKeywordScore packageInfo versionInfo +
    mcpDescriptionScore packageInfo versionInfo +
    mcpDependencyScore versionInfo + mcpRepositoryBonus packageInfo

/-- The download-count bonus (+5 above 1000 downloads, +2 above 100). -/
def mcpDownloadBonus (downloads : Nat) : ℚ :=
  if downloads > 1000 then 5 else if downloads > 100 then 2 else 0

/-- C6: the staleness penalty multiplies exactly the sum of the additive
terms (name, keywords, description, dependencies, repository bonus) and is
applied once, before the download-count bonus is added: for a stale package
the confidence is `min((0.7·subtotal + bonus)/100, 1)`, while a fresh package
gets `min((subtotal + bonus)/100, 1)`; and `min(score/100, 1)` is the same as
`min(score, 100)/100`. -/
theorem claim_C6_staleness_penalty_placement (packageName : String)
    (packageInfo : NpmPackageInfo) (versionInfo : NpmPackageVersion) :
    ((PackageMetadataExtractor.analyzeMCPIndicators packageName packageInfo
        versionInfo false).2.1 =
      min ((0.7 * mcpAdditiveSubtotal packageName packageInfo versionInfo +
        mcpDownloadBonus (PackageMetadataExtractor.getDownloadEstimate packageInfo)) / 100) 1) ∧
    ((PackageMetadataExtractor.analyzeMCPIndicators packageName packageInfo
        versionInfo true).2.1 =
      min ((mcpAdditiveSubtotal packageName packageInfo versionInfo +
        mcpDownloadBonus (PackageMetadataExtractor.getDownloadEstimate packageInfo)) / 100) 1) ∧
    (min ((0.7 * mcpAdditiveSubtotal packageName packageInfo versionInfo +
        mcpDownloadBonus (PackageMetadataExtractor.getDownloadEstimate packageInfo)) / 100) 1 =
      min (0.7 * mcpAdditiveSubtotal packageName packageInfo versionInfo +
        mcpDownloadBonus (PackageMetadataExtractor.getDownloadEstimate packageInfo)) 100 / 100) := by
  refine ⟨?_, ?_, ?_⟩
  · unfold PackageMetadataExtractor.analyzeMCPIndicators mcpAdditiveSubtotal
      mcpNameScore mcpKeywordScore mcpDescriptionScore mcpDependencyScore
      mcpRepositoryBonus mcpDownloadBonus
    dsimp only
    simp only [if_pos (show ((!false) = true) from rfl), ite_add_extract,
      ite_add_extract2]
    exact minConfAux _ _ (by ring)
  · unfold PackageMetadataExtractor.analyzeMCPIndicators mcpAdditiveSubtotal
      mcpNameScore mcpKeywordScore mcpDescriptionScore mcpDependencyScore
      mcpRepositoryBonus mcpDownloadBonus
    dsimp only
    simp only [if_neg (show ¬((!true) = true) by simp), ite_add_extract,
      ite_add_extract2]
    exact minConfAux _ _ (by ring)
  · have h100 : (100:ℚ) / 100 = 1 := by norm_num
    rw [← h100, min_div_div_right (by norm_num : (0:ℚ) ≤ 100)]

/-! ## Claims C4 and C5 -/

/-- C4: when the underlying `discoverMCPServers` call rejects with message
`msg`, the job record reaches `failed` with `error = msg`, its results list
still empty, and `completedAt` set; `completedAt` is likewise set on the
`completed` terminal state. -/
theorem claim_C4_job_failure_propagation (options : ResearchOptions)
    (jobId : String) (now tEnd : Nat) (msg : String) :
    (∃ finalJob,
      (ResearchService.runResearchJobStates
          (ResearchService.startResearchJob options jobId now)
          (Except.error msg) tEnd).getLast? = some finalJob ∧
      finalJob.status = ResearchService.JobStatus.failed ∧
      finalJob.error = some msg ∧
      finalJob.results = [] ∧
      finalJob.completedAt = some tEnd) ∧
    (∀ results : List MCPServer, ∃ finalJob,
      (ResearchService.runResearchJobStates
          (ResearchService.startResearchJob options jobId now)
          (Except.ok results) tEnd).getLast? = some finalJob ∧
      finalJob.status = ResearchService.JobStatus.completed ∧
      finalJob.completedAt = some tEnd) := by
  constructor
  · exact ⟨_, rfl, rfl, rfl, rfl, rfl⟩
  · intro results
    exact ⟨_, rfl, rfl, rfl⟩

/-- Linear rank of the job states: `pending < running < terminal`. -/
def statusRank : ResearchService.JobStatus → Nat
  | ResearchService.JobStatus.pending => 0
  | ResearchService.JobStatus.running => 1
  | ResearchService.JobStatus.completed => 2
  | ResearchService.JobStatus.failed => 2

/-- C5: the status trace of a job run is exactly
`pending → running → (completed | failed)`: strictly forward-progressing, no
transition out of a terminal state, no skipping `running`, and exactly one
terminal state per run. -/
theorem claim_C5_job_state_machine (options : ResearchOptions) (jobId : String)
    (now tEnd : Nat) (outcome : Except String (List MCPServer)) :
    (let sts := (ResearchService.runResearchJobStates
        (ResearchService.startResearchJob options jobId now) outcome
        tEnd).map ResearchService.ResearchJob.status
     (sts = [ResearchService.JobStatus.pending, ResearchService.JobStatus.running,
        ResearchService.JobStatus.completed] ∨
      sts = [ResearchService.JobStatus.pending, ResearchService.JobStatus.running,
        ResearchService.JobStatus.failed]) ∧
     List.Chain' (fun a b => statusRank a < statusRank b) sts ∧
     (sts.filter (fun s => s = ResearchService.JobStatus.completed ||
        s = ResearchService.JobStatus.failed)).length = 1 ∧
     List.Chain' (fun a _ => a ≠ ResearchService.JobStatus.completed ∧
        a ≠ ResearchService.JobStatus.failed) sts ∧
     List.Chain' (fun a b => (b = ResearchService.JobStatus.completed ∨
        b = ResearchService.JobStatus.failed) →
        a = ResearchService.JobStatus.running) sts) := by
  cases outcome with
  | ok results =>
    simp [ResearchService.runResearchJobStates, ResearchService.startResearchJob,
      statusRank]
  | error msg =>
    simp [ResearchService.runResearchJobStates, ResearchService.startResearchJob,
      statusRank]

/-! ## Claims C8 and C9 -/

/-- A concrete GitHub collaborator oracle: repository fetch succeeds with the
given star count; every other call fails / parses to nothing. -/
def exampleGitHubEnv (stars : Nat) : GitHubEnv :=
  { getRepository := fun _ _ => Except.ok { stargazers_count := stars }
    downloadFile := fun _ _ _ => Except.error "not found"
    getRepositoryContents := fun _ _ _ => Except.error "not found"
    parsePackageJson := fun _ => none
    parseJsonValue := fun _ => none }

/-- C8: when the fetched star count is below 5, `analyzeRepository` returns
`null` and its collaborator-call trace is exactly the single repository fetch:
no manifest (`package.json`) download, no README download, and no
directory-listing call is attempted. -/
theorem claim_C8_low_star_floor (env : GitHubEnv) (now : Nat)
    (owner repo : String) (repoInfo : GitHubRepoInfo)
    (hfetch : env.getRepository owner repo = Except.ok repoInfo)
    (hstars : repoInfo.stargazers_count < 5) :
    RepositoryMetadataExtractor.analyzeRepository env now owner repo =
      (none, [GHOp.getRepo owner repo]) := by
  unfold RepositoryMetadataExtractor.analyzeRepository
  rw [hfetch]
  simp [hstars]

/-- Witness for C8: a repository with 4 stars is skipped after the single
metadata fetch. -/
theorem claim_C8_low_star_floor_witness :
    RepositoryMetadataExtractor.analyzeRepository (exampleGitHubEnv 4) 0
      "acme" "fs-mcp" = (none, [GHOp.getRepo "acme" "fs-mcp"]) :=
  claim_C8_low_star_floor (exampleGitHubEnv 4) 0 "acme" "fs-mcp"
    { stargazers_count := 4 } rfl (by decide)

/-- C9: a URL that does not match the repository-host pattern
`github\.com\/([^\/]+)\/([^\/]+)` makes `ResearchService.analyzeRepository`
fail (the thrown `Invalid GitHub repository URL` error, re-raised by the
surrounding catch) with an empty collaborator-call trace: no cache read and
no analyzer call is attempted. -/
theorem claim_C9_invalid_url_validation (url : String)
    (cacheLookup : String → Option MCPServer)
    (analyze : String → String → Option MCPServer)
    (hnomatch : scanGithubRepo ['/'] url.toList = none) :
    ResearchService.analyzeRepository url cacheLookup analyze =
      (Except.error "Failed to analyze repository: Error: Invalid GitHub repository URL",
        []) := by
  unfold ResearchService.analyzeRepository
  rw [hnomatch]

/-- Witness for C9: a non-GitHub URL fails with no collaborator calls. -/
theorem claim_C9_invalid_url_validation_witness :
    ResearchService.analyzeRepository "https://example.com/foo/bar"
      (fun _ => none) (fun _ _ => none) =
      (Except.error "Failed to analyze repository: Error: Invalid GitHub repository URL",
        []) :=
  claim_C9_invalid_url_validation "https://example.com/foo/bar"
    (fun _ => none) (fun _ _ => none) (by decide)

/-! ## Lemmas about the deduplicating merge, and claim C7 -/

/-- Map invariant: every entry's value carries its key as its `id`. -/
def idKeyed (m : List (String × MCPServer)) : Prop := ∀ p ∈ m, p.2.id = p.1

theorem idKeyed_nil : idKeyed [] := by
  intro p hp
  cases hp

theorem idKeyed_jsMapSet {m : List (String × MCPServer)} {k : String}
    {v : MCPServer} (hm : idKeyed m) (hv : v.id = k) :
    idKeyed (jsMapSet m k v) := by
  unfold jsMapSet
  split
  · intro p hp
    rw [List.mem_map] at hp
    obtain ⟨q, hq, hpq⟩ := hp
    by_cases hk : q.1 = k
    · rw [if_pos hk] at hpq
      rw [← hpq]
      exact hv
    · rw [if_neg hk] at hpq
      rw [← hpq]
      exact hm q hq
  · intro p hp
    rw [List.mem_append] at hp
    rcases hp with hp | hp
    · exact hm p hp
    · rw [List.mem_singleton] at hp
      rw [hp]
      exact hv

theorem mergeGitHubAndNpmData_id (a b : MCPServer) :
    (ResearchService.mergeGitHubAndNpmData a b).id = a.id := rfl

theorem ghStep_keys (m : List (String × MCPServer)) (s : MCPServer) :
    (ResearchService.ghStep m s).map (·.1) = jsSetAdd (m.map (·.1)) s.id :=
  keys_jsMapSet m s.id s

theorem idKeyed_ghStep {m : List (String × MCPServer)} (hm : idKeyed m)
    (s : MCPServer) : idKeyed (ResearchService.ghStep m s) :=
  idKeyed_jsMapSet hm rfl

theorem npmStep_keys {m : List (String × MCPServer)} (hm : idKeyed m)
    (s : MCPServer) :
    (ResearchService.npmStep m s).map (·.1) = jsSetAdd (m.map (·.1)) s.id := by
  unfold ResearchService.npmStep
  cases hget : jsMapGet m s.id with
  | none => exact keys_jsMapSet m s.id s
  | some existing =>
    have hex : existing.id = s.id := hm _ (jsMapGet_mem hget)
    have hmem : s.id ∈ m.map (·.1) := by
      by_contra hc
      have h0 := (jsMapGet_eq_none m s.id).mpr hc
      rw [hget] at h0
      cases h0
    show (if existing.source = ServerSource.github ∧
        s.source = ServerSource.npm then
      jsMapSet m existing.id
        (ResearchService.mergeGitHubAndNpmData existing s)
      else m).map (·.1) = jsSetAdd (m.map (·.1)) s.id
    split_ifs with hif
    · rw [keys_jsMapSet, hex]
    · unfold jsSetAdd
      rw [if_pos hmem]

theorem idKeyed_npmStep {m : List (String × MCPServer)} (hm : idKeyed m)
    (s : MCPServer) : idKeyed (ResearchService.npmStep m s) := by
  unfold ResearchService.npmStep
  cases hget : jsMapGet m s.id with
  | none => exact idKeyed_jsMapSet hm rfl
  | some existing =>
    show idKeyed (if existing.source = ServerSource.github ∧
        s.source = ServerSource.npm then
      jsMapSet m existing.id
        (ResearchService.mergeGitHubAndNpmData existing s)
      else m)
    split_ifs with hif
    · exact idKeyed_jsMapSet hm (mergeGitHubAndNpmData_id existing s)
    · exact hm

theorem ghFold_keys (l : List MCPServer) :
    ∀ (m : List (String × MCPServer)),
      ((l.foldl ResearchService.ghStep m).map (·.1)) =
        (l.map (·.id)).foldl jsSetAdd (m.map (·.1)) := by
  induction l with
  | nil => intro m; rfl
  | cons s t ih =>
    intro m
    rw [List.foldl_cons, List.map_cons, List.foldl_cons, ih, ghStep_keys]

theorem idKeyed_ghFold (l : List MCPServer) :
    ∀ (m : List (String × MCPServer)), idKeyed m →
      idKeyed (l.foldl ResearchService.ghStep m) := by
  induction l with
  | nil => intro m hm; exact hm
  | cons s t ih =>
    intro m hm
    exact ih _ (idKeyed_ghStep hm s)

theorem npmFold_keys (l : List MCPServer) :
    ∀ (m : List (String × MCPServer)), idKeyed m →
      ((l.foldl ResearchService.npmStep m).map (·.1)) =
        (l.map (·.id)).foldl jsSetAdd (m.map (·.1)) := by
  induction l with
  | nil => intro m _; rfl
  | cons s t ih =>
    intro m hm
    rw [List.foldl_cons, List.map_cons, List.foldl_cons,
      ih _ (idKeyed_npmStep hm s), npmStep_keys hm]

theorem toFinset_foldl_jsSetAdd (l acc : List String) :
    (l.foldl jsSetAdd acc).toFinset = acc.toFinset ∪ l.toFinset := by
  ext x
  simp [List.mem_toFinset, mem_foldl_jsSetAdd]

theorem length_jsSetList_append (a b : List String) (ha : a.Nodup)
    (hb : b.Nodup) :
    ((a ++ b).foldl jsSetAdd []).length +
      (b.filter (fun x => decide (x ∈ a))).length = a.length + b.length := by
  have hnod : ((a ++ b).foldl jsSetAdd []).Nodup :=
    nodup_foldl_jsSetAdd _ _ List.nodup_nil
  have hcard : ((a ++ b).foldl jsSetAdd []).toFinset =
      a.toFinset ∪ b.toFinset := by
    rw [toFinset_foldl_jsSetAdd]
    simp [List.toFinset_append]
  have hfilter : (b.filter (fun x => decide (x ∈ a))).length =
      (a.toFinset ∩ b.toFinset).card := by
    have hnf : (b.filter (fun x => decide (x ∈ a))).Nodup := hb.filter _
    rw [← List.toFinset_card_of_nodup hnf]
    congr 1
    ext x
    simp [List.mem_toFinset, List.mem_filter, and_comm]
  rw [← List.toFinset_card_of_nodup hnod, hcard, hfilter,
    Finset.card_union_add_card_inter,
    List.toFinset_card_of_nodup ha, List.toFinset_card_of_nodup hb]

/-- The number of collisions: registry-sourced entries whose identity also
occurs among the repository-sourced entries (the claim's `|collisions|`). -/
def collisionCount (githubServers npmServers : List MCPServer) : Nat :=
  (npmServers.filter (fun s => decide (s.id ∈ githubServers.map (·.id)))).length

theorem filter_map_id_length (l : List MCPServer) (p : String → Bool) :
    ((l.map (·.id)).filter p).length = (l.filter (fun s => p s.id)).length := by
  induction l with
  | nil => rfl
  | cons s t ih =>
    rw [List.map_cons, List.filter_cons, List.filter_cons]
    cases hp : p s.id with
    | false =>
      rw [if_neg Bool.false_ne_true, if_neg Bool.false_ne_true]
      exact ih
    | true =>
      rw [if_pos rfl, if_pos rfl]
      simp [ih]

theorem collisionCount_eq_idFilter (gh npm : List MCPServer) :
    collisionCount gh npm =
      ((npm.map (·.id)).filter (fun x => decide (x ∈ gh.map (·.id)))).length := by
  unfold collisionCount
  exact (filter_map_id_length npm (fun x => decide (x ∈ gh.map (·.id)))).symm

/-- C7: with duplicate-free identities on each side and at least one
collision, the deduplicating merge yields exactly `|A| + |B| - |collisions|`
entries. -/
theorem claim_C7_dedup_merge_count (githubServers npmServers : List MCPServer)
    (hA : (githubServers.map (·.id)).Nodup)
    (hB : (npmServers.map (·.id)).Nodup)
    (_hcol : 1 ≤ collisionCount githubServers npmServers) :
    (ResearchService.deduplicateAndMerge githubServers npmServers).length =
      githubServers.length + npmServers.length -
        collisionCount githubServers npmServers := by
  have hkeys2 : ((npmServers.foldl ResearchService.npmStep
      (githubServers.foldl ResearchService.ghStep [])).map (·.1)) =
      ((githubServers.map (·.id)) ++ (npmServers.map (·.id))).foldl jsSetAdd [] := by
    rw [npmFold_keys _ _ (idKeyed_ghFold _ _ idKeyed_nil), ghFold_keys,
      List.foldl_append]
    rfl
  have hlen : (ResearchService.deduplicateAndMerge githubServers npmServers).length =
      (((githubServers.map (·.id)) ++ (npmServers.map (·.id))).foldl jsSetAdd []).length := by
    show ((npmServers.foldl ResearchService.npmStep
      (githubServers.foldl ResearchService.ghStep [])).map (·.2)).length = _
    rw [List.length_map, ← hkeys2, List.length_map]
  have hcount := length_jsSetList_append (githubServers.map (·.id))
    (npmServers.map (·.id)) hA hB
  have hcc := collisionCount_eq_idFilter githubServers npmServers
  rw [← hcc] at hcount
  rw [List.length_map, List.length_map] at hcount
  have hle : collisionCount githubServers npmServers ≤ npmServers.length := by
    rw [hcc]
    exact le_trans (List.length_filter_le _ _) (by rw [List.length_map])
  rw [hlen]
  omega

/-- Witness for C7: two repository entries and two registry entries with one
shared identity yield 2 + 2 - 1 = 3 merged entries. -/
theorem claim_C7_dedup_merge_count_witness :
    (ResearchService.deduplicateAndMerge
      [exampleServer "acme/a" ServerSource.github 7 [] "",
        exampleServer "acme/b" ServerSource.github 9 [] ""]
      [exampleServer "acme/a" ServerSource.npm 3 [] "",
        exampleServer "npm:c" ServerSource.npm 4 [] ""]).length = 3 := by
  have h := claim_C7_dedup_merge_count
    [exampleServer "acme/a" ServerSource.github 7 [] "",
      exampleServer "acme/b" ServerSource.github 9 [] ""]
    [exampleServer "acme/a" ServerSource.npm 3 [] "",
      exampleServer "npm:c" ServerSource.npm 4 [] ""]
    (by simp [exampleServer]) (by simp [exampleServer])
    (by simp [collisionCount, exampleServer])
  rw [h]
  simp [collisionCount, exampleServer]

/-! ## Value-level fold lemmas and claim C2 -/

theorem ghFold_values (l : List MCPServer) :
    ∀ (m : List (String × MCPServer)),
      (∀ s ∈ l, s.id ∉ m.map (·.1)) → (l.map (·.id)).Nodup →
      l.foldl ResearchService.ghStep m = m ++ l.map (fun s => (s.id, s)) := by
  induction l with
  | nil => intro m _ _; simp
  | cons s t ih =>
    intro m hfresh hnodup
    rw [List.foldl_cons]
    have hstep : ResearchService.ghStep m s = m ++ [(s.id, s)] :=
      jsMapSet_of_not_mem s (hfresh s (List.mem_cons_self s t))
    rw [hstep]
    rw [List.map_cons, List.nodup_cons] at hnodup
    have hfresh' : ∀ x ∈ t, x.id ∉ (m ++ [(s.id, s)]).map (·.1) := by
      intro x hx
      rw [List.map_append, List.mem_append]
      rintro (hc | hc)
      · exact hfresh x (List.mem_cons_of_mem s hx) hc
      · rw [List.map_singleton, List.mem_singleton] at hc
        have hxs : x.id = s.id := hc
        exact hnodup.1 (hxs ▸ List.mem_map_of_mem (·.id) hx)
    rw [ih _ hfresh' hnodup.2, List.map_cons]
    simp

theorem npmFold_values (l : List MCPServer) :
    ∀ (m : List (String × MCPServer)),
      (∀ s ∈ l, s.id ∉ m.map (·.1)) → (l.map (·.id)).Nodup →
      l.foldl ResearchService.npmStep m = m ++ l.map (fun s => (s.id, s)) := by
  induction l with
  | nil => intro m _ _; simp
  | cons s t ih =>
    intro m hfresh hnodup
    rw [List.foldl_cons]
    have hget : jsMapGet m s.id = none :=
      (jsMapGet_eq_none m s.id).mpr (hfresh s (List.mem_cons_self s t))
    have hstep : ResearchService.npmStep m s = m ++ [(s.id, s)] := by
      unfold ResearchService.npmStep
      rw [hget]
      exact jsMapSet_of_not_mem s (hfresh s (List.mem_cons_self s t))
    rw [hstep]
    rw [List.map_cons, List.nodup_cons] at hnodup
    have hfresh' : ∀ x ∈ t, x.id ∉ (m ++ [(s.id, s)]).map (·.1) := by
      intro x hx
      rw [List.map_append, List.mem_append]
      rintro (hc | hc)
      · exact hfresh x (List.mem_cons_of_mem s hx) hc
      · rw [List.map_singleton, List.mem_singleton] at hc
        have hxs : x.id = s.id := hc
        exact hnodup.1 (hxs ▸ List.mem_map_of_mem (·.id) hx)
    rw [ih _ hfresh' hnodup.2, List.map_cons]
    simp

/-- With duplicate-free npm identities, merging an empty repository branch
returns exactly the npm servers. -/
theorem dedup_nil_left (npmServers : List MCPServer)
    (hB : (npmServers.map (·.id)).Nodup) :
    ResearchService.deduplicateAndMerge [] npmServers = npmServers := by
  show ((npmServers.foldl ResearchService.npmStep
    (List.foldl ResearchService.ghStep [] [])).map (·.2)) = npmServers
  rw [show List.foldl ResearchService.ghStep [] [] =
    ([] : List (String × MCPServer)) from rfl]
  rw [npmFold_values npmServers [] (by intro s _ hc; cases hc) hB]
  rw [List.nil_append, List.map_map]
  exact (List.map_congr_left (fun s _ => rfl)).trans (List.map_id _)

/-- With duplicate-free GitHub identities, merging an empty registry branch
returns exactly the GitHub servers. -/
theorem dedup_nil_right (githubServers : List MCPServer)
    (hA : (githubServers.map (·.id)).Nodup) :
    ResearchService.deduplicateAndMerge githubServers [] = githubServers := by
  show ((List.foldl ResearchService.npmStep
    (githubServers.foldl ResearchService.ghStep []) []).map (·.2)) = githubServers
  rw [List.foldl_nil]
  rw [ghFold_values githubServers [] (by intro s _ hc; cases hc) hA]
  rw [List.nil_append, List.map_map]
  exact (List.map_congr_left (fun s _ => rfl)).trans (List.map_id _)

/-- A registry analysis passing the 0.3 threshold, for witnesses. -/
def exAnalysis : NpmPackageAnalysis :=
  { packageName := "fs-mcp-server"
    isMCP := true
    confidence := 1/2
    mcpIndicators := []
    metadata := {} }

/-- C2: branch failures are isolated. The repository branch's own catch turns
a rejected provider search into an empty list (and symmetrically for the
registry branch); consequently `discoverMCPServers` resolves — with the
registry branch's results (up to the stable popularity ranking) — when the
entire repository search rejects, and with the repository branch's results
when the registry pipeline rejects. The `Nodup`/length hypotheses state that
the surviving branch's entries have distinct identities and fit within
`maxResults`, so nothing is collapsed or truncated away. -/
theorem claim_C2_branch_isolation
    (options : ResearchOptions) (cache : List (String × List MCPServer))
    (msg : String) (analyze : GitHubRepo → Option MCPServer)
    (npmOutcome : Except String (List NpmPackageAnalysis))
    (ghOutcome : Except String GitHubSearchResult) (now : Nat)
    (hmiss : jsMapGet cache (ResearchService.researchCacheKey
      (options.query.getD "MCP server") (options.maxResults.getD 50)
      (options.minStars.getD 10)) = none)
    (hnodupNpm : ((ResearchService.searchNpm npmOutcome now).map (·.id)).Nodup)
    (hlenNpm : (ResearchService.searchNpm npmOutcome now).length ≤
      options.maxResults.getD 50)
    (hnodupGh : ((ResearchService.searchGitHub (options.maxResults.getD 50)
      (options.minStars.getD 10) (options.includeForks.getD false) ghOutcome
      analyze).map (·.id)).Nodup)
    (hlenGh : (ResearchService.searchGitHub (options.maxResults.getD 50)
      (options.minStars.getD 10) (options.includeForks.getD false) ghOutcome
      analyze).length ≤ options.maxResults.getD 50) :
    ResearchService.searchGitHub (options.maxResults.getD 50)
      (options.minStars.getD 10) (options.includeForks.getD false)
      (Except.error msg) analyze = [] ∧
    ResearchService.searchNpm (Except.error msg) now = [] ∧
    ((ResearchService.discoverMCPServers options cache (Except.error msg)
        analyze npmOutcome now).1).Perm
      (ResearchService.searchNpm npmOutcome now) ∧
    ((ResearchService.discoverMCPServers options cache ghOutcome analyze
        (Except.error msg) now).1).Perm
      (ResearchService.searchGitHub (options.maxResults.getD 50)
        (options.minStars.getD 10) (options.includeForks.getD false) ghOutcome
        analyze) := by
  refine ⟨rfl, rfl, ?_, ?_⟩
  · unfold ResearchService.discoverMCPServers
    dsimp only
    simp only [hmiss]
    rw [show ResearchService.searchGitHub (options.maxResults.getD 50)
        (options.minStars.getD 10) (options.includeForks.getD false)
        (Except.error msg) analyze = [] from rfl]
    rw [dedup_nil_left _ hnodupNpm]
    have hperm : (ResearchService.sortByPopularityDesc
        (ResearchService.searchNpm npmOutcome now)).Perm
        (ResearchService.searchNpm npmOutcome now) :=
      List.mergeSort_perm _ _
    rw [List.take_of_length_le (by rw [hperm.length_eq]; exact hlenNpm)]
    exact hperm
  · unfold ResearchService.discoverMCPServers
    dsimp only
    simp only [hmiss]
    rw [show ResearchService.searchNpm (Except.error msg) now = [] from rfl]
    rw [dedup_nil_right _ hnodupGh]
    have hperm : (ResearchService.sortByPopularityDesc
        (ResearchService.searchGitHub (options.maxResults.getD 50)
          (options.minStars.getD 10) (options.includeForks.getD false)
          ghOutcome analyze)).Perm
        (ResearchService.searchGitHub (options.maxResults.getD 50)
          (options.minStars.getD 10) (options.includeForks.getD false)
          ghOutcome analyze) :=
      List.mergeSort_perm _ _
    rw [List.take_of_length_le (by rw [hperm.length_eq]; exact hlenGh)]
    exact hperm

/-- Witness for C2: with the repository branch rejecting and a registry branch
producing one qualifying entry, `discoverMCPServers` resolves with (a
permutation of) that non-empty registry result. -/
theorem claim_C2_branch_isolation_witness :
    (ResearchService.discoverMCPServers {} [] (Except.error "boom")
      (fun _ => none) (Except.ok [exAnalysis]) 0).1.Perm
      (ResearchService.searchNpm (Except.ok [exAnalysis]) 0) ∧
    ResearchService.searchNpm (Except.ok [exAnalysis]) 0 ≠ [] := by
  have hc : (exAnalysis.isMCP && decide (exAnalysis.confidence ≥ 0.3)) = true := by
    rw [show exAnalysis.isMCP = true from rfl, Bool.true_and]
    exact decide_eq_true (by norm_num [exAnalysis])
  have hsearch : ResearchService.searchNpm (Except.ok [exAnalysis]) 0 =
      [PackageMetadataExtractor.analysisToMCPServer 0 exAnalysis] := by
    show (List.filter _ [exAnalysis]).map _ = _
    simp [hc]
  have h := claim_C2_branch_isolation {} [] "boom" (fun _ => none)
    (Except.ok [exAnalysis]) (Except.ok { total_count := 0, items := [] }) 0
    rfl (by rw [hsearch]; simp) (by rw [hsearch]; simp)
    (by simp [ResearchService.searchGitHub])
    (by simp [ResearchService.searchGitHub])
  refine ⟨h.2.2.1, ?_⟩
  rw [hsearch]
  simp

/-! ## Claim C10 -/

/-- A repository whose fork count exceeds twice its star count, for the
`includeForks` divergence. -/
def forkedRepo : GitHubRepo :=
  { full_name := "acme/forked"
    stargazers_count := 5
    forks_count := 100 }

/-- The list a cache-missing `discoverMCPServers` call computes fresh:
both branches, deduplicating merge, stable popularity ranking, truncation. -/
def freshDiscoverList (options : ResearchOptions)
    (githubSearchOutcome : Except String GitHubSearchResult)
    (analyze : GitHubRepo → Option MCPServer)
    (npmAnalysesOutcome : Except String (List NpmPackageAnalysis))
    (now : Nat) : List MCPServer :=
  (ResearchService.sortByPopularityDesc (ResearchService.deduplicateAndMerge
    (ResearchService.searchGitHub (options.maxResults.getD 50)
      (options.minStars.getD 10) (options.includeForks.getD false)
      githubSearchOutcome analyze)
    (ResearchService.searchNpm npmAnalysesOutcome now))).take
    (options.maxResults.getD 50)

theorem discover_miss (options : ResearchOptions)
    (cache : List (String × List MCPServer))
    (githubSearchOutcome : Except String GitHubSearchResult)
    (analyze : GitHubRepo → Option MCPServer)
    (npmAnalysesOutcome : Except String (List NpmPackageAnalysis)) (now : Nat)
    (hmiss : jsMapGet cache (ResearchService.researchCacheKey
      (options.query.getD "MCP server") (options.maxResults.getD 50)
      (options.minStars.getD 10)) = none) :
    ResearchService.discoverMCPServers options cache githubSearchOutcome
      analyze npmAnalysesOutcome now =
    (freshDiscoverList options githubSearchOutcome analyze npmAnalysesOutcome now,
      jsMapSet cache (ResearchService.researchCacheKey
        (options.query.getD "MCP server") (options.maxResults.getD 50)
        (options.minStars.getD 10))
        (freshDiscoverList options githubSearchOutcome analyze
          npmAnalysesOutcome now)) := by
  unfold ResearchService.discoverMCPServers freshDiscoverList
  dsimp only
  simp only [hmiss]

theorem discover_hit (options : ResearchOptions)
    (cache : List (String × List MCPServer))
    (githubSearchOutcome : Except String GitHubSearchResult)
    (analyze : GitHubRepo → Option MCPServer)
    (npmAnalysesOutcome : Except String (List NpmPackageAnalysis)) (now : Nat)
    (cached : List MCPServer)
    (hhit : jsMapGet cache (ResearchService.researchCacheKey
      (options.query.getD "MCP server") (options.maxResults.getD 50)
      (options.minStars.getD 10)) = some cached) :
    ResearchService.discoverMCPServers options cache githubSearchOutcome
      analyze npmAnalysesOutcome now = (cached, cache) := by
  unfold ResearchService.discoverMCPServers
  dsimp only
  simp only [hhit]

/-- C10 (implicit): the discovery cache key is built only from query,
maxResults and minStars — `includeForks` is omitted — so a second call within
the TTL agreeing on those three options returns the first call's cached list
verbatim, whatever its own `includeForks` (and provider outcomes) are, even
though `includeForks` changes the repository filter when computing fresh. -/
theorem claim_C10_cache_key_omits_includeForks
    (o1 o2 : ResearchOptions) (cache : List (String × List MCPServer))
    (gh1 gh2 : Except String GitHubSearchResult)
    (a1 a2 : GitHubRepo → Option MCPServer)
    (npm1 npm2 : Except String (List NpmPackageAnalysis)) (now1 now2 : Nat)
    (hq : o1.query = o2.query) (hm : o1.maxResults = o2.maxResults)
    (hs : o1.minStars = o2.minStars)
    (hmiss : jsMapGet cache (ResearchService.researchCacheKey
      (o1.query.getD "MCP server") (o1.maxResults.getD 50)
      (o1.minStars.getD 10)) = none) :
    ResearchService.researchCacheKey (o2.query.getD "MCP server")
      (o2.maxResults.getD 50) (o2.minStars.getD 10) =
      ResearchService.researchCacheKey (o1.query.getD "MCP server")
        (o1.maxResults.getD 50) (o1.minStars.getD 10) ∧
    (ResearchService.discoverMCPServers o2
        (ResearchService.discoverMCPServers o1 cache gh1 a1 npm1 now1).2
        gh2 a2 npm2 now2).1 =
      (ResearchService.discoverMCPServers o1 cache gh1 a1 npm1 now1).1 ∧
    (∃ repo : GitHubRepo, ∃ minStars : Nat,
      ResearchService.githubRepoFilter minStars true repo ≠
        ResearchService.githubRepoFilter minStars false repo) := by
  have hkey : ResearchService.researchCacheKey (o2.query.getD "MCP server")
      (o2.maxResults.getD 50) (o2.minStars.getD 10) =
      ResearchService.researchCacheKey (o1.query.getD "MCP server")
        (o1.maxResults.getD 50) (o1.minStars.getD 10) := by
    rw [hq, hm, hs]
  refine ⟨hkey, ?_, ?_⟩
  · rw [discover_miss o1 cache gh1 a1 npm1 now1 hmiss]
    rw [discover_hit o2 _ gh2 a2 npm2 now2
      (freshDiscoverList o1 gh1 a1 npm1 now1)
      (by rw [hkey]; exact jsMapGet_jsMapSet_self _ _ _)]
  · exact ⟨forkedRepo, 0, by decide⟩

/-- Witness for C10: two calls differing only in `includeForks` — the second
returns the first's cached list. -/
theorem claim_C10_cache_key_omits_includeForks_witness :
    (ResearchService.discoverMCPServers { includeForks := some true }
        (ResearchService.discoverMCPServers { includeForks := some false } []
          (Except.ok { total_count := 1, items := [forkedRepo] })
          (fun _ => none) (Except.error "npm down") 0).2
        (Except.error "github down") (fun _ => none) (Except.error "npm down") 0).1 =
      (ResearchService.discoverMCPServers { includeForks := some false } []
        (Except.ok { total_count := 1, items := [forkedRepo] })
        (fun _ => none) (Except.error "npm down") 0).1 :=
  (claim_C10_cache_key_omits_includeForks
    { includeForks := some false } { includeForks := some true } []
    (Except.ok { total_count := 1, items := [forkedRepo] })
    (Except.error "github down") (fun _ => none) (fun _ => none)
    (Except.error "npm down") (Except.error "npm down") 0 0
    rfl rfl rfl rfl).2.1
